import Mathlib

/-!
Verification of the `datadog_archives` sink and the `amqp` encoder of the
vector repository (files `src/sinks/datadog_archives.rs` and
`src/sinks/amqp/encoder.rs`).

The development shallowly embeds the code that the claims are about:

* `generate_object_key` (object-key construction and `//`-collapsing),
* `DatadogArchivesEncoding::generate_log_id` (18-byte ids, base64),
* the per-event normalization loop of
  `DatadogArchivesEncoding::encode_input` (reserved attributes, `date`),
* the partition-key template `/dt=%Y%m%d/hour=%H/`,
* the three backend request builders (`split_input` / `build_request`),
* the `aws_s3` storage-class validation of `build_s3_sink`,
* `AmqpEncoder::encode_input`.

Machine integers are modelled as `Nat`/`Int` with explicit `% 2^w` at the
places where the Rust code relies on wrapping (`AtomicU32::fetch_add`,
`BytesMut::put_int`).  Strings are modelled via `List Char` (`String.data`).
External library behaviour that the code calls into (chrono date formatting,
base64, `BytesMut` byte layout, `str::replace`) is embedded by faithful
executable Lean translations of the documented semantics of those functions.
-/

set_option maxRecDepth 100000

/-! ### Decimal digit rendering (embedding of chrono's zero-padded numeric fields) -/

/-- Decimal digit character for `n < 10`. -/
def digitChar (n : Nat) : Char := Char.ofNat (48 + n)

theorem digitChar_toNat (n : Nat) (h : n < 10) : (digitChar n).toNat = 48 + n := by
  interval_cases n <;> decide

/-- Fuel-driven helper for `natDigits` (structural recursion so that the
kernel can evaluate it inside `decide`). -/
def natDigitsAux (fuel n : Nat) : List Char :=
  match fuel with
  | 0 => []
  | fuel + 1 =>
    if n < 10 then [digitChar n]
    else natDigitsAux fuel (n / 10) ++ [digitChar (n % 10)]

/-- Decimal digits of a natural number, most significant first (no sign,
at least one digit). -/
def natDigits (n : Nat) : List Char := natDigitsAux (n + 1) n

theorem natDigitsAux_fuel_irrelevant (f₁ : Nat) :
    ∀ f₂ n : Nat, n < f₁ → n < f₂ → natDigitsAux f₁ n = natDigitsAux f₂ n := by
  induction f₁ with
  | zero => omega
  | succ f₁ ih =>
    intro f₂ n h₁ h₂
    cases f₂ with
    | zero => omega
    | succ f₂ =>
      simp only [natDigitsAux]
      split
      · rfl
      · rw [ih f₂ (n / 10) (by omega) (by omega)]

/-- The recursive unfolding of `natDigits`. -/
theorem natDigits_eq (n : Nat) :
    natDigits n = if n < 10 then [digitChar n]
      else natDigits (n / 10) ++ [digitChar (n % 10)] := by
  show natDigitsAux (n + 1) n = _
  simp only [natDigitsAux]
  split
  · rfl
  · rw [natDigitsAux_fuel_irrelevant n (n / 10 + 1) (n / 10) (by omega) (by omega)]
    rfl

/-- Numeric value of a digit string (left fold, leading zeros allowed). -/
def valDigits (l : List Char) : Nat :=
  l.foldl (fun a c => a * 10 + (c.toNat - 48)) 0

/-- Zero-pad the decimal rendering of `n` to at least `w` characters:
chrono's `Pad::Zero` numeric formatting. -/
def zeroPad (w : Nat) (n : Nat) : List Char :=
  List.replicate (w - (natDigits n).length) '0' ++ natDigits n

theorem valDigits_foldl_init (l : List Char) (a : Nat) :
    l.foldl (fun a c => a * 10 + (c.toNat - 48)) a =
      a * 10 ^ l.length + valDigits l := by
  induction l generalizing a with
  | nil => simp [valDigits]
  | cons c t ih =>
    simp only [List.foldl_cons, List.length_cons, valDigits] at *
    rw [ih (a * 10 + (c.toNat - 48)), ih (0 * 10 + (c.toNat - 48))]
    ring

theorem valDigits_append (l₁ l₂ : List Char) :
    valDigits (l₁ ++ l₂) = valDigits l₁ * 10 ^ l₂.length + valDigits l₂ := by
  simp only [valDigits, List.foldl_append]
  exact valDigits_foldl_init l₂ (valDigits l₁)

theorem valDigits_natDigits (n : Nat) : valDigits (natDigits n) = n := by
  induction n using Nat.strong_induction_on with
  | _ n ih =>
    rw [natDigits_eq]
    split
    · rename_i hlt
      simp [valDigits, digitChar_toNat n hlt]
    · rename_i hge
      rw [valDigits_append, ih (n / 10) (Nat.div_lt_self (by omega) (by omega))]
      simp [valDigits, digitChar_toNat (n % 10) (by omega)]
      omega

theorem valDigits_replicate_zero (k : Nat) (l : List Char) :
    valDigits (List.replicate k '0' ++ l) = valDigits l := by
  rw [valDigits_append]
  have : valDigits (List.replicate k '0') = 0 := by
    induction k with
    | zero => simp [valDigits]
    | succ k ih =>
      simp only [List.replicate_succ, valDigits, List.foldl_cons] at *
      simpa [valDigits] using ih
  simp [this]

theorem valDigits_zeroPad (w n : Nat) : valDigits (zeroPad w n) = n := by
  rw [zeroPad, valDigits_replicate_zero, valDigits_natDigits]

theorem zeroPad_injective (w n₁ n₂ : Nat) (h : zeroPad w n₁ = zeroPad w n₂) :
    n₁ = n₂ := by
  rw [← valDigits_zeroPad w n₁, ← valDigits_zeroPad w n₂, h]

theorem natDigits_length_le (k n : Nat) (hk : 0 < k) (h : n < 10 ^ k) :
    (natDigits n).length ≤ k := by
  induction k generalizing n with
  | zero => omega
  | succ k ih =>
    rw [natDigits_eq]
    split
    · simp
    · have hk' : 0 < k := by
        by_contra hc
        have : k = 0 := by omega
        subst this
        simp at h
        omega
      have : n / 10 < 10 ^ k := by
        have := Nat.pow_succ 10 k
        omega
      have := ih (n / 10) hk' this
      simp only [List.length_append, List.length_cons, List.length_nil]
      omega

theorem natDigits_length_pos (n : Nat) : 0 < (natDigits n).length := by
  rw [natDigits_eq]
  split <;> simp

theorem zeroPad_length (w n : Nat) (hw : 0 < w) (h : n < 10 ^ w) :
    (zeroPad w n).length = w := by
  have h1 := natDigits_length_le w n hw h
  simp only [zeroPad, List.length_append, List.length_replicate]
  omega

/-- Every character produced by `natDigits` is a decimal digit. -/
theorem natDigits_mem_digit (n : Nat) (c : Char) (hc : c ∈ natDigits n) :
    48 ≤ c.toNat ∧ c.toNat ≤ 57 := by
  induction n using Nat.strong_induction_on with
  | _ n ih =>
    rw [natDigits_eq] at hc
    split at hc
    · rename_i hlt
      simp at hc
      subst hc
      rw [digitChar_toNat n hlt]
      omega
    · rw [List.mem_append] at hc
      rcases hc with hc | hc
      · exact ih (n / 10) (Nat.div_lt_self (by omega) (by omega)) hc
      · simp at hc
        subst hc
        rw [digitChar_toNat (n % 10) (by omega)]
        omega

theorem zeroPad_head_digit (w n : Nat) (c : Char) (l : List Char)
    (h : zeroPad w n = c :: l) : 48 ≤ c.toNat ∧ c.toNat ≤ 57 := by
  have : c ∈ zeroPad w n := by rw [h]; simp
  rw [zeroPad, List.mem_append] at this
  rcases this with hc | hc
  · rw [List.eq_of_mem_replicate hc]
    simp
  · exact natDigits_mem_digit n c hc

/-! ### Civil (proleptic Gregorian) calendar, embedding chrono's UTC date/time

chrono converts a millisecond UNIX timestamp to a UTC date/time by Euclidean
division into days and milliseconds-of-day, and converts the day number to a
calendar date with the standard civil-from-days algorithm.  `/` and `%` on
`Int` below are Euclidean division and remainder, which for the positive
constant divisors used here coincide with floor division — exactly what
chrono's `div_euclid`/`rem_euclid` perform. -/

/-- Calendar date `(year, month, day)` of a day number counted from
1970-01-01 (Howard Hinnant's `civil_from_days`, as used by chrono). -/
def civilFromDays (z : Int) : Int × Int × Int :=
  let w := z + 719468
  let era := w / 146097
  let doe := w % 146097
  let yoe := (doe - doe / 1460 + doe / 36524 - doe / 146096) / 365
  let y := yoe + era * 400
  let doy := doe - (365 * yoe + yoe / 4 - yoe / 100)
  let mp := (5 * doy + 2) / 153
  let d := doy - (153 * mp + 2) / 5 + 1
  let m := mp + (if mp < 10 then 3 else -9)
  (if m ≤ 2 then y + 1 else y, m, d)

theorem civilFromDays_month_day_bounds (z y m d : Int)
    (h : civilFromDays z = (y, m, d)) :
    1 ≤ m ∧ m ≤ 12 ∧ 1 ≤ d ∧ d ≤ 31 := by
  simp only [civilFromDays] at h
  split at h <;>
  · rw [Prod.mk.injEq, Prod.mk.injEq] at h
    obtain ⟨-, hm, hd⟩ := h
    subst hm
    subst hd
    omega

/-- chrono's numeric year field (`%Y`, also used by RFC 3339 rendering):
zero-padded to 4 digits, and written with an explicit sign when the year
lies outside `0..=9999`. -/
def showYear (y : Int) : List Char :=
  if y < 0 then '-' :: zeroPad 4 y.natAbs
  else if y < 10000 then zeroPad 4 y.toNat
  else '+' :: zeroPad 4 y.toNat

theorem showYear_injective (y₁ y₂ : Int) (h : showYear y₁ = showYear y₂) :
    y₁ = y₂ := by
  unfold showYear at h
  split_ifs at h with h1 h2 h3 h4 h5 h6 h7
  · -- both negative
    simp only [List.cons.injEq, true_and] at h
    have := zeroPad_injective 4 y₁.natAbs y₂.natAbs h
    omega
  · -- y₁ < 0, y₂ in 0..9999: heads '-' vs digit
    exfalso
    cases hz : zeroPad 4 y₂.toNat with
    | nil => rw [hz] at h; exact List.cons_ne_nil _ _ h
    | cons c l =>
      rw [hz] at h
      have hd := zeroPad_head_digit 4 y₂.toNat c l hz
      simp only [List.cons.injEq] at h
      have : ('-').toNat = c.toNat := by rw [h.1]
      simp at this
      omega
  · -- y₁ < 0, y₂ ≥ 10000: '-' vs '+'
    exfalso
    simp only [List.cons.injEq] at h
    exact absurd h.1 (by decide)
  · -- y₁ in 0..9999, y₂ < 0
    exfalso
    cases hz : zeroPad 4 y₁.toNat with
    | nil => rw [hz] at h; exact List.cons_ne_nil _ _ h.symm
    | cons c l =>
      rw [hz] at h
      have hd := zeroPad_head_digit 4 y₁.toNat c l hz
      simp only [List.cons.injEq] at h
      have : ('-').toNat = c.toNat := by rw [← h.1]
      simp at this
      omega
  · -- both in 0..9999
    have := zeroPad_injective 4 y₁.toNat y₂.toNat h
    omega
  · -- y₁ in 0..9999, y₂ ≥ 10000: digit vs '+'
    exfalso
    cases hz : zeroPad 4 y₁.toNat with
    | nil => rw [hz] at h; exact List.cons_ne_nil _ _ h.symm
    | cons c l =>
      rw [hz] at h
      have hd := zeroPad_head_digit 4 y₁.toNat c l hz
      simp only [List.cons.injEq] at h
      have : ('+').toNat = c.toNat := by rw [← h.1]
      simp at this
      omega
  · -- y₁ ≥ 10000, y₂ < 0
    exfalso
    simp only [List.cons.injEq] at h
    exact absurd h.1 (by decide)
  · -- y₁ ≥ 10000, y₂ in 0..9999
    exfalso
    cases hz : zeroPad 4 y₂.toNat with
    | nil => rw [hz] at h; exact List.cons_ne_nil _ _ h
    | cons c l =>
      rw [hz] at h
      have hd := zeroPad_head_digit 4 y₂.toNat c l hz
      simp only [List.cons.injEq] at h
      have : ('+').toNat = c.toNat := by rw [h.1]
      simp at this
      omega
  · -- both ≥ 10000
    simp only [List.cons.injEq, true_and] at h
    have := zeroPad_injective 4 y₁.toNat y₂.toNat h
    omega

/-! ### The object-key partition template and RFC 3339 date rendering -/

/-- `KEY_TEMPLATE` from `datadog_archives.rs`: the strftime template used by
`DatadogArchivesSinkConfig::build_partitioner` for every backend. -/
def KEY_TEMPLATE : String := "/dt=%Y%m%d/hour=%H/"

/-- UTC calendar hour of a millisecond timestamp: the calendar date together
with the hour of day, as chrono computes them (Euclidean split of the
timestamp into days and milliseconds of day). -/
def civilHourOf (ts : Int) : (Int × Int × Int) × Nat :=
  (civilFromDays (ts / 86400000), (ts % 86400000).toNat / 3600000)

/-- Rendering of `KEY_TEMPLATE` for a given calendar date and hour:
`/dt=%Y%m%d/hour=%H/` with chrono's zero-padded numeric fields. -/
def renderKeyTemplate : (Int × Int × Int) × Nat → List Char
  | ((y, m, d), h) =>
    "/dt=".data ++ showYear y ++ zeroPad 2 m.toNat ++ zeroPad 2 d.toNat ++
      "/hour=".data ++ zeroPad 2 h ++ "/".data

/-- Modelled from the spec: the partition key produced for an event whose
resolved timestamp is `ts` milliseconds since the UNIX epoch —
`Template::render` of `KEY_TEMPLATE` (vector's `Template` strftime
rendering lives outside `src/`; the partitioner is built by
`DatadogArchivesSinkConfig::build_partitioner`).
Vector's template rendering falls back to the current wall-clock time when
the event has no timestamp; `ts` is the resolved value in either case. -/
def partitionKeyOf (ts : Int) : String :=
  ⟨renderKeyTemplate (civilHourOf ts)⟩

/-- chrono's `to_rfc3339_opts(SecondsFormat::Millis, true)` for a UTC
date-time given as milliseconds since the UNIX epoch: RFC 3339 with exactly
three fractional digits and a literal `Z` suffix. -/
def rfc3339Millis (ts : Int) : String :=
  let dt := civilFromDays (ts / 86400000)
  let msod := (ts % 86400000).toNat
  ⟨showYear dt.1 ++ "-".data ++ zeroPad 2 dt.2.1.toNat ++ "-".data ++
    zeroPad 2 dt.2.2.toNat ++ "T".data ++ zeroPad 2 (msod / 3600000) ++
    ":".data ++ zeroPad 2 (msod / 60000 % 60) ++ ":".data ++
    zeroPad 2 (msod / 1000 % 60) ++ ".".data ++ zeroPad 3 (msod % 1000) ++
    "Z".data⟩

theorem renderKeyTemplate_injective
    (y₁ m₁ d₁ : Int) (h₁ : Nat) (y₂ m₂ d₂ : Int) (h₂ : Nat)
    (hm₁ : 1 ≤ m₁ ∧ m₁ ≤ 12) (hd₁ : 1 ≤ d₁ ∧ d₁ ≤ 31) (hh₁ : h₁ < 24)
    (hm₂ : 1 ≤ m₂ ∧ m₂ ≤ 12) (hd₂ : 1 ≤ d₂ ∧ d₂ ≤ 31) (hh₂ : h₂ < 24)
    (heq : renderKeyTemplate ((y₁, m₁, d₁), h₁) =
           renderKeyTemplate ((y₂, m₂, d₂), h₂)) :
    y₁ = y₂ ∧ m₁ = m₂ ∧ d₁ = d₂ ∧ h₁ = h₂ := by
  have p100 : (100 : Nat) = 10 ^ 2 := by norm_num
  have lm₁ : (zeroPad 2 m₁.toNat).length = 2 :=
    zeroPad_length 2 _ (by omega) (by rw [← p100]; omega)
  have lm₂ : (zeroPad 2 m₂.toNat).length = 2 :=
    zeroPad_length 2 _ (by omega) (by rw [← p100]; omega)
  have ld₁ : (zeroPad 2 d₁.toNat).length = 2 :=
    zeroPad_length 2 _ (by omega) (by rw [← p100]; omega)
  have ld₂ : (zeroPad 2 d₂.toNat).length = 2 :=
    zeroPad_length 2 _ (by omega) (by rw [← p100]; omega)
  have lh₁ : (zeroPad 2 h₁).length = 2 :=
    zeroPad_length 2 _ (by omega) (by rw [← p100]; omega)
  have lh₂ : (zeroPad 2 h₂).length = 2 :=
    zeroPad_length 2 _ (by omega) (by rw [← p100]; omega)
  simp only [renderKeyTemplate, List.append_assoc] at heq
  have step1 := (List.append_inj heq rfl).2
  have hr : (zeroPad 2 m₁.toNat ++ (zeroPad 2 d₁.toNat ++ ("/hour=".data ++
        (zeroPad 2 h₁ ++ "/".data)))).length =
      (zeroPad 2 m₂.toNat ++ (zeroPad 2 d₂.toNat ++ ("/hour=".data ++
        (zeroPad 2 h₂ ++ "/".data)))).length := by
    simp only [List.length_append, lm₁, lm₂, ld₁, ld₂, lh₁, lh₂]
  obtain ⟨hy, step2⟩ := List.append_inj' step1 hr
  obtain ⟨hm, step3⟩ := List.append_inj step2 (lm₁.trans lm₂.symm)
  obtain ⟨hd, step4⟩ := List.append_inj step3 (ld₁.trans ld₂.symm)
  have step5 := (List.append_inj step4 rfl).2
  obtain ⟨hh, -⟩ := List.append_inj step5 (lh₁.trans lh₂.symm)
  refine ⟨showYear_injective y₁ y₂ hy, ?_, ?_, zeroPad_injective 2 h₁ h₂ hh⟩
  · have := zeroPad_injective 2 m₁.toNat m₂.toNat hm
    omega
  · have := zeroPad_injective 2 d₁.toNat d₂.toNat hd
    omega

/-- Hour-of-day component of `civilHourOf` is below 24. -/
theorem civilHourOf_hour_lt (ts : Int) : (civilHourOf ts).2 < 24 := by
  simp only [civilHourOf]
  omega

theorem partitionKeyOf_eq_of_same_hour (t₁ t₂ : Int)
    (h : civilHourOf t₁ = civilHourOf t₂) :
    partitionKeyOf t₁ = partitionKeyOf t₂ := by
  simp only [partitionKeyOf, h]

theorem partitionKeyOf_ne_of_diff_hour (t₁ t₂ : Int)
    (h : civilHourOf t₁ ≠ civilHourOf t₂) :
    partitionKeyOf t₁ ≠ partitionKeyOf t₂ := by
  intro hs
  apply h
  have hchars : renderKeyTemplate (civilHourOf t₁) =
      renderKeyTemplate (civilHourOf t₂) := congrArg String.data hs
  obtain ⟨⟨⟨y₁, m₁, d₁⟩, hod₁⟩, hp₁⟩ : ∃ p, civilHourOf t₁ = p := ⟨_, rfl⟩
  obtain ⟨⟨⟨y₂, m₂, d₂⟩, hod₂⟩, hp₂⟩ : ∃ p, civilHourOf t₂ = p := ⟨_, rfl⟩
  rw [hp₁, hp₂] at hchars ⊢
  have hq₁ := hp₁
  have hq₂ := hp₂
  simp only [civilHourOf, Prod.mk.injEq] at hq₁ hq₂
  have hb₁ := civilFromDays_month_day_bounds (t₁ / 86400000) y₁ m₁ d₁ (by
    rw [hq₁.1])
  have hb₂ := civilFromDays_month_day_bounds (t₂ / 86400000) y₂ m₂ d₂ (by
    rw [hq₂.1])
  have hhod₁ : hod₁ < 24 := by
    obtain ⟨-, hh⟩ := hq₁
    omega
  have hhod₂ : hod₂ < 24 := by
    obtain ⟨-, hh⟩ := hq₂
    omega
  obtain ⟨ey, em, ed, eh⟩ := renderKeyTemplate_injective y₁ m₁ d₁ hod₁ y₂ m₂ d₂
    hod₂ ⟨hb₁.1, hb₁.2.1⟩ ⟨hb₁.2.2.1, hb₁.2.2.2⟩ hhod₁
    ⟨hb₂.1, hb₂.2.1⟩ ⟨hb₂.2.2.1, hb₂.2.2.2⟩ hhod₂ hchars
  rw [ey, em, ed, eh]

/-! ### Big-endian byte layout (`BytesMut::put_int` / `put_u32`) and base64

`BytesMut::put_int(v, 6)` writes the low 6 bytes of the 64-bit two's
complement representation of `v`, most significant first; `put_u32` writes
4 big-endian bytes.  `BASE64_STANDARD.encode` is RFC 4648 base64 with the
standard alphabet and `=` padding. -/

/-- The `w` low-order bytes of `n`, most significant first. -/
def bytesBE : Nat → Nat → List Nat
  | 0, _ => []
  | w + 1, n => n / 256 ^ w % 256 :: bytesBE w n

/-- Big-endian numeric value of a byte list. -/
def fromBytesBE (l : List Nat) : Nat :=
  l.foldl (fun a b => a * 256 + b) 0

theorem bytesBE_length (w n : Nat) : (bytesBE w n).length = w := by
  induction w generalizing n with
  | zero => rfl
  | succ w ih => simp [bytesBE, ih]

theorem bytesBE_mem_lt (w n : Nat) (x : Nat) (hx : x ∈ bytesBE w n) : x < 256 := by
  induction w generalizing n with
  | zero => simp [bytesBE] at hx
  | succ w ih =>
    simp only [bytesBE, List.mem_cons] at hx
    rcases hx with hx | hx
    · omega
    · exact ih n hx

theorem fromBytesBE_foldl_init (l : List Nat) (a : Nat) :
    l.foldl (fun a b => a * 256 + b) a = a * 256 ^ l.length + fromBytesBE l := by
  induction l generalizing a with
  | nil => simp [fromBytesBE]
  | cons b t ih =>
    simp only [List.foldl_cons, List.length_cons, fromBytesBE] at *
    rw [ih (a * 256 + b), ih (0 * 256 + b)]
    ring

theorem fromBytesBE_bytesBE (w n : Nat) : fromBytesBE (bytesBE w n) = n % 256 ^ w := by
  induction w generalizing n with
  | zero =>
    simp [bytesBE, fromBytesBE]
    omega
  | succ w ih =>
    show fromBytesBE (n / 256 ^ w % 256 :: bytesBE w n) = _
    rw [show fromBytesBE (n / 256 ^ w % 256 :: bytesBE w n) =
      List.foldl (fun a b => a * 256 + b) (0 * 256 + n / 256 ^ w % 256)
        (bytesBE w n) from rfl]
    rw [fromBytesBE_foldl_init, bytesBE_length, ih]
    have h2 : n % (256 ^ w * 256) = n % 256 ^ w + 256 ^ w * (n / 256 ^ w % 256) :=
      Nat.mod_mul
    have h3 : (256 : Nat) ^ (w + 1) = 256 ^ w * 256 := by ring
    rw [h3, h2]
    ring

theorem bytesBE_injective (w n₁ n₂ : Nat) (h₁ : n₁ < 256 ^ w) (h₂ : n₂ < 256 ^ w)
    (h : bytesBE w n₁ = bytesBE w n₂) : n₁ = n₂ := by
  have e := congrArg fromBytesBE h
  rw [fromBytesBE_bytesBE, fromBytesBE_bytesBE, Nat.mod_eq_of_lt h₁,
    Nat.mod_eq_of_lt h₂] at e
  exact e

/-- The RFC 4648 standard base64 alphabet. -/
def b64Alphabet : List Char :=
  "ABCDEFGHIJKLMNOPQRSTUVWXYZabcdefghijklmnopqrstuvwxyz0123456789+/".data

/-- Character for a sextet value. -/
def b64Char (s : Nat) : Char := b64Alphabet.getD s '?'

/-- Sextet value of an alphabet character (inverse table). -/
def b64CharVal (c : Char) : Nat := b64Alphabet.indexOf c

theorem b64CharVal_b64Char (s : Nat) (h : s < 64) : b64CharVal (b64Char s) = s := by
  interval_cases s <;> decide

theorem b64Char_ne_pad (s : Nat) (h : s < 64) : b64Char s ≠ '=' := by
  interval_cases s <;> decide

/-- `BASE64_STANDARD.encode`: encode bytes three at a time; a final group of
one or two bytes is padded with `=`. -/
def base64Encode : List Nat → List Char
  | a :: b :: c :: rest =>
    let n := a * 65536 + b * 256 + c
    b64Char (n / 262144 % 64) :: b64Char (n / 4096 % 64) ::
      b64Char (n / 64 % 64) :: b64Char (n % 64) :: base64Encode rest
  | [a, b] =>
    [b64Char (a / 4), b64Char (a % 4 * 16 + b / 16), b64Char (b % 16 * 4), '=']
  | [a] =>
    [b64Char (a / 4), b64Char (a % 4 * 16), '=', '=']
  | [] => []

/-- Base64 decoding (used only to invert `base64Encode` in proofs). -/
def base64Decode : List Char → List Nat
  | c₀ :: c₁ :: c₂ :: c₃ :: rest =>
    let s₀ := b64CharVal c₀
    let s₁ := b64CharVal c₁
    if c₂ = '=' then [s₀ * 4 + s₁ / 16]
    else
      let s₂ := b64CharVal c₂
      if c₃ = '=' then [s₀ * 4 + s₁ / 16, s₁ % 16 * 16 + s₂ / 4]
      else
        let s₃ := b64CharVal c₃
        let n := s₀ * 262144 + s₁ * 4096 + s₂ * 64 + s₃
        n / 65536 :: n / 256 % 256 :: n % 256 :: base64Decode rest
  | _ => []

theorem base64Encode_length_of_three (a b c : Nat) (rest : List Nat) :
    base64Encode (a :: b :: c :: rest) =
      b64Char ((a * 65536 + b * 256 + c) / 262144 % 64) ::
      b64Char ((a * 65536 + b * 256 + c) / 4096 % 64) ::
      b64Char ((a * 65536 + b * 256 + c) / 64 % 64) ::
      b64Char ((a * 65536 + b * 256 + c) % 64) :: base64Encode rest := rfl

theorem base64_roundtrip :
    ∀ l : List Nat, (∀ x ∈ l, x < 256) → base64Decode (base64Encode l) = l
  | [], _ => rfl
  | [a], hb => by
    have ha : a < 256 := hb a (by simp)
    simp only [base64Encode, base64Decode]
    simp only [if_true]
    rw [b64CharVal_b64Char (a / 4) (by omega), b64CharVal_b64Char (a % 4 * 16) (by omega)]
    have : a / 4 * 4 + a % 4 * 16 / 16 = a := by omega
    rw [this]
  | [a, b], hb => by
    have ha : a < 256 := hb a (by simp)
    have hbb : b < 256 := hb b (by simp)
    simp only [base64Encode, base64Decode]
    rw [if_neg (b64Char_ne_pad (b % 16 * 4) (by omega))]
    simp only [if_true]
    rw [b64CharVal_b64Char (a / 4) (by omega),
      b64CharVal_b64Char (a % 4 * 16 + b / 16) (by omega),
      b64CharVal_b64Char (b % 16 * 4) (by omega)]
    have e1 : a / 4 * 4 + (a % 4 * 16 + b / 16) / 16 = a := by omega
    have e2 : (a % 4 * 16 + b / 16) % 16 * 16 + b % 16 * 4 / 4 = b := by omega
    rw [e1, e2]
  | a :: b :: c :: rest, hb => by
    have ha : a < 256 := hb a (by simp)
    have hbb : b < 256 := hb b (by simp)
    have hc : c < 256 := hb c (by simp)
    have ih := base64_roundtrip rest (fun x hx => hb x (by simp [hx]))
    rw [base64Encode_length_of_three]
    show base64Decode (_ :: _ :: _ :: _ :: base64Encode rest) = _
    simp only [base64Decode]
    rw [if_neg (b64Char_ne_pad ((a * 65536 + b * 256 + c) / 64 % 64) (by omega)),
      if_neg (b64Char_ne_pad ((a * 65536 + b * 256 + c) % 64) (by omega))]
    rw [b64CharVal_b64Char ((a * 65536 + b * 256 + c) / 262144 % 64) (by omega),
      b64CharVal_b64Char ((a * 65536 + b * 256 + c) / 4096 % 64) (by omega),
      b64CharVal_b64Char ((a * 65536 + b * 256 + c) / 64 % 64) (by omega),
      b64CharVal_b64Char ((a * 65536 + b * 256 + c) % 64) (by omega)]
    rw [ih]
    have hn : a * 65536 + b * 256 + c < 16777216 := by omega
    have e1 : (a * 65536 + b * 256 + c) / 262144 % 64 * 262144 +
        (a * 65536 + b * 256 + c) / 4096 % 64 * 4096 +
        (a * 65536 + b * 256 + c) / 64 % 64 * 64 +
        (a * 65536 + b * 256 + c) % 64 = a * 65536 + b * 256 + c := by omega
    rw [e1]
    have e2 : (a * 65536 + b * 256 + c) / 65536 = a := by omega
    have e3 : (a * 65536 + b * 256 + c) / 256 % 256 = b := by omega
    have e4 : (a * 65536 + b * 256 + c) % 256 = c := by omega
    rw [e2, e3, e4]

theorem base64Encode_injective (l₁ l₂ : List Nat) (h₁ : ∀ x ∈ l₁, x < 256)
    (h₂ : ∀ x ∈ l₂, x < 256) (h : base64Encode l₁ = base64Encode l₂) : l₁ = l₂ := by
  rw [← base64_roundtrip l₁ h₁, ← base64_roundtrip l₂ h₂, h]

/-! ### `DatadogArchivesEncoding`: id generation state

`DatadogArchivesEncoding` carries `id_rnd_bytes: [u8; 8]` (drawn from
`thread_rng` once, in `DatadogArchivesEncoding::new`) and an
`id_seq_number: AtomicU32` starting at 0 and bumped with wrapping
`fetch_add(1)` on every generated id.  The state is per encoding instance
(one instance per request builder), not process-global.  The `thread_rng`
draw is modelled as the `rnd` argument of `DatadogArchivesEncoding.new`. -/

structure EncState where
  id_rnd_bytes : List Nat
  id_seq_number : Nat
  deriving DecidableEq

/-- `DatadogArchivesEncoding::new` with the 8 `thread_rng` bytes passed
explicitly. -/
def DatadogArchivesEncoding.new (rnd : List Nat) : EncState :=
  { id_rnd_bytes := rnd, id_seq_number := 0 }

/-- `DatadogArchivesEncoding::generate_log_id`, with the `Utc::now()`
millisecond timestamp passed explicitly.  Returns the base64 id together
with the state after the wrapping `fetch_add(1)`.  `put_int(millis, 6)`
writes the 6 low-order bytes of the two's complement value, most
significant first: `(millis mod 2^48)` as an unsigned 48-bit value. -/
def generate_log_id (s : EncState) (nowMillis : Int) : List Char × EncState :=
  let idBytes := bytesBE 6 (nowMillis % (2 ^ 48)).toNat ++ s.id_rnd_bytes ++
    bytesBE 4 (s.id_seq_number % 2 ^ 32)
  (base64Encode idBytes,
    { s with id_seq_number := (s.id_seq_number + 1) % 2 ^ 32 })

/-- Encoder state after normalizing records at the given sequence of
`Utc::now()` timestamps, starting from a fresh `DatadogArchivesEncoding`. -/
def genStateAfter (rnd : List Nat) (tss : List Int) : EncState :=
  tss.foldl (fun s t => (generate_log_id s t).2) (DatadogArchivesEncoding.new rnd)

theorem genStateAfter_rnd (rnd : List Nat) (tss : List Int) :
    (genStateAfter rnd tss).id_rnd_bytes = rnd := by
  suffices h : ∀ s : EncState,
      (tss.foldl (fun s t => (generate_log_id s t).2) s).id_rnd_bytes =
        s.id_rnd_bytes by
    exact h (DatadogArchivesEncoding.new rnd)
  induction tss with
  | nil => intro s; rfl
  | cons t ts ih => intro s; exact ih _

theorem genStateAfter_counter (rnd : List Nat) (tss : List Int) :
    (genStateAfter rnd tss).id_seq_number = tss.length % 2 ^ 32 := by
  suffices h : ∀ s : EncState, s.id_seq_number < 2 ^ 32 →
      (tss.foldl (fun s t => (generate_log_id s t).2) s).id_seq_number =
        (s.id_seq_number + tss.length) % 2 ^ 32 by
    have := h (DatadogArchivesEncoding.new rnd)
      (by simp [DatadogArchivesEncoding.new])
    simpa [DatadogArchivesEncoding.new, genStateAfter] using this
  induction tss with
  | nil =>
    intro s hs
    simp only [List.foldl_nil, List.length_nil, Nat.add_zero]
    omega
  | cons t ts ih =>
    intro s hs
    have step : ((generate_log_id s t).2).id_seq_number = (s.id_seq_number + 1) % 2 ^ 32 := rfl
    simp only [List.foldl_cons]
    rw [ih _ (by rw [step]; exact Nat.mod_lt _ (by decide)), step, List.length_cons]
    omega

/-- The id produced at the state reached after `tss.length` generations:
48-bit big-endian millisecond timestamp, the instance's 8 random bytes, and
the wrapped 32-bit counter, base64-encoded. -/
theorem generate_log_id_bytes (rnd : List Nat) (tss : List Int) (t : Int) :
    (generate_log_id (genStateAfter rnd tss) t).1 =
      base64Encode (bytesBE 6 (t % 2 ^ 48).toNat ++ rnd ++
        bytesBE 4 (tss.length % 2 ^ 32)) := by
  have hgen : (generate_log_id (genStateAfter rnd tss) t).1 =
      base64Encode (bytesBE 6 (t % 2 ^ 48).toNat ++
        (genStateAfter rnd tss).id_rnd_bytes ++
        bytesBE 4 ((genStateAfter rnd tss).id_seq_number % 2 ^ 32)) := rfl
  rw [hgen, genStateAfter_rnd, genStateAfter_counter,
    Nat.mod_mod_of_dvd _ dvd_rfl]

/-! ### Log events and the normalization performed by `encode_input`

Modelled from the spec: vector's `LogEvent` (crate `vector-core`, not under
`src/`) is a structured value with top-level fields, plus schema-driven
accessors: `message_path()`/`host_path()` give the path of the field that
carries the "message"/"host" semantic (if any), and `remove_timestamp()`
removes and returns the field holding the event timestamp (the timestamp
meaning, by default the `timestamp` key).  Fields are modelled as an
association list of top-level `(key, value)` pairs; `insert` overwrites an
existing key in place, `remove` deletes a key, and `rename_key(from, to)`
removes `from` and, when it existed, inserts its value at `to`. -/

/-- A structural value (vector's `Value`; the `float` variant is omitted —
no claim depends on floating point). -/
inductive Value where
  | bytes : String → Value
  | integer : Int → Value
  | boolean : Bool → Value
  | timestamp : Int → Value
  | object : List (String × Value) → Value
  | array : List Value → Value
  | null : Value

/-- Modelled from the spec: a log event — its top-level fields and the
resolved semantic paths.  `timestamp_key` is the resolved timestamp field
name (`"timestamp"` under the default log schema). -/
structure LogEvent where
  fields : List (String × Value)
  message_path : Option String
  host_path : Option String
  timestamp_key : String

/-- An event: a log plus its delivery finalizers (tokens modelled as
opaque numbers). -/
structure Event where
  log : LogEvent
  finalizers : List Nat

/-- `BTreeMap`-style insert on an association list: overwrite in place if
the key is present, append otherwise. -/
def insertKV (m : List (String × Value)) (k : String) (v : Value) :
    List (String × Value) :=
  if m.any (fun p => p.1 = k) then
    m.map (fun p => if p.1 = k then (k, v) else p)
  else m ++ [(k, v)]

/-- Remove a key from an association list. -/
def removeKV (m : List (String × Value)) (k : String) : List (String × Value) :=
  m.filter (fun p => decide (p.1 ≠ k))

/-- `LogEvent::rename_key(src, dst)`: if `src` exists, remove it and insert
its value at `dst`; otherwise do nothing. -/
def renameKey (m : List (String × Value)) (src dst : String) :
    List (String × Value) :=
  match List.lookup src m with
  | none => m
  | some v => insertKV (removeKV m src) dst v

/-- Top-level keys of a field map. -/
def keysOf (m : List (String × Value)) : List String := m.map Prod.fst

/-- `RESERVED_ATTRIBUTES` from `datadog_archives.rs`. -/
def RESERVED_ATTRIBUTES : List String :=
  ["_id", "date", "message", "host", "source", "service", "status", "tags",
   "trace_id", "span_id"]

/-- The state of an event's fields after the id/date/rename steps of the
`encode_input` loop, before the sweep into `attributes`:

* `insert("_id", id)` — `id` is the string from `generate_log_id`;
* `remove_timestamp()`, then `insert("date", ...)` where the date string is
  the removed timestamp formatted RFC 3339 (millisecond precision, UTC), or
  the formatted `Utc::now()` (`now` below) if the event had no timestamp
  value (a removed non-timestamp value also falls back to `now`, because
  `as_timestamp()` returns `None` for it);
* `rename_key(message_path, "message")` and `rename_key(host_path, "host")`
  when those paths exist. -/
def normalizePre (id : String) (now : Int) (e : LogEvent) :
    List (String × Value) :=
  let f1 := insertKV e.fields "_id" (Value.bytes id)
  let tsVal := List.lookup e.timestamp_key f1
  let f2 := removeKV f1 e.timestamp_key
  let dateMillis : Int :=
    match tsVal with
    | some (Value.timestamp t) => t
    | _ => now
  let f3 := insertKV f2 "date" (Value.bytes (rfc3339Millis dateMillis))
  let f4 :=
    match e.message_path with
    | some p => renameKey f3 p "message"
    | none => f3
  match e.host_path with
  | some p => renameKey f4 p "host"
  | none => f4

/-- The per-event body of `DatadogArchivesEncoding::encode_input`: the
id/date/rename steps of `normalizePre`, then every field whose key is not
in `RESERVED_ATTRIBUTES` is moved into the `attributes` map, which is
inserted as a top-level field. -/
def normalizeEvent (id : String) (now : Int) (e : LogEvent) :
    List (String × Value) :=
  let f5 := normalizePre id now e
  let attrs := f5.filter (fun kv => decide (kv.1 ∉ RESERVED_ATTRIBUTES))
  let kept := f5.filter (fun kv => decide (kv.1 ∈ RESERVED_ATTRIBUTES))
  insertKV kept "attributes" (Value.object attrs)

/-- `DatadogArchivesEncoding::encode_input` over a batch: normalizes each
event in order, threading the id-generation state and consuming one
`Utc::now()` value per event (the downstream newline-delimited JSON
serialization of the records is external to this file's claims). -/
def DatadogArchivesEncoding.encode_input (s : EncState) (nows : List Int)
    (evs : List Event) : List (List (String × Value)) × EncState :=
  match evs, nows with
  | [], _ => ([], s)
  | _, [] => ([], s)
  | ev :: evs, now :: nows =>
    let p := generate_log_id s now
    let rec' := normalizeEvent (⟨p.1⟩ : String) now ev.log
    let q := DatadogArchivesEncoding.encode_input p.2 nows evs
    (rec' :: q.1, q.2)

/-! ### Association-list lemmas for the field-map operations -/

theorem keysOf_map_replace (m : List (String × Value)) (k : String) (v : Value) :
    keysOf (m.map (fun p => if p.1 = k then (k, v) else p)) = keysOf m := by
  unfold keysOf
  rw [List.map_map]
  apply List.map_congr_left
  intro p hp
  by_cases hpk : p.1 = k
  · simp [hpk]
  · simp [hpk]

theorem mem_keysOf_insertKV (m : List (String × Value)) (k k' : String) (v : Value) :
    k' ∈ keysOf (insertKV m k v) ↔ k' ∈ keysOf m ∨ k' = k := by
  unfold insertKV
  split
  · rename_i hany
    rw [List.any_eq_true] at hany
    obtain ⟨q, hq, hqk⟩ := hany
    rw [decide_eq_true_eq] at hqk
    rw [keysOf_map_replace]
    constructor
    · exact Or.inl
    · rintro (h | rfl)
      · exact h
      · exact List.mem_map.mpr ⟨q, hq, hqk⟩
  · unfold keysOf
    simp

theorem keysOf_filter_key (m : List (String × Value)) (f : String → Bool) (k' : String) :
    k' ∈ keysOf (m.filter (fun kv => f kv.1)) ↔ k' ∈ keysOf m ∧ f k' = true := by
  unfold keysOf
  simp only [List.mem_map, List.mem_filter]
  constructor
  · rintro ⟨p, ⟨hp, hf⟩, rfl⟩
    exact ⟨⟨p, hp, rfl⟩, hf⟩
  · rintro ⟨⟨p, hp, rfl⟩, hf⟩
    exact ⟨p, ⟨hp, hf⟩, rfl⟩

theorem mem_keysOf_removeKV (m : List (String × Value)) (k k' : String) :
    k' ∈ keysOf (removeKV m k) ↔ k' ∈ keysOf m ∧ k' ≠ k := by
  unfold removeKV
  rw [keysOf_filter_key m (fun s => decide (s ≠ k)) k']
  simp

theorem lookup_cons_ne (a : String) (b : Value) (t : List (String × Value))
    (k : String) (h : a ≠ k) : List.lookup k ((a, b) :: t) = List.lookup k t := by
  have hb : (k == a) = false := beq_false_of_ne (Ne.symm h)
  simp [List.lookup, hb]

theorem lookup_cons_eq (a : String) (b : Value) (t : List (String × Value))
    (k : String) (h : a = k) : List.lookup k ((a, b) :: t) = some b := by
  subst h
  simp [List.lookup]

theorem lookup_filter_key (m : List (String × Value)) (f : String → Bool)
    (k' : String) (hf : f k' = true) :
    List.lookup k' (m.filter (fun kv => f kv.1)) = List.lookup k' m := by
  induction m with
  | nil => rfl
  | cons p t ih =>
    obtain ⟨a, b⟩ := p
    simp only [List.filter_cons]
    by_cases hk : a = k'
    · have hfa : f (a, b).1 = true := by simp only [hk]; exact hf
      rw [if_pos hfa, lookup_cons_eq a b _ k' hk, lookup_cons_eq a b t k' hk]
    · by_cases hfp : f (a, b).1 = true
      · rw [if_pos hfp, lookup_cons_ne a b _ k' hk,
          lookup_cons_ne a b t k' hk, ih]
      · rw [if_neg (by simpa using hfp), lookup_cons_ne a b t k' hk, ih]

theorem lookup_removeKV_ne (m : List (String × Value)) (k k' : String)
    (h : k' ≠ k) : List.lookup k' (removeKV m k) = List.lookup k' m :=
  lookup_filter_key m (fun s => decide (s ≠ k)) k' (by simpa using h)

theorem lookup_eq_none_iff (m : List (String × Value)) (k : String) :
    List.lookup k m = none ↔ k ∉ keysOf m := by
  induction m with
  | nil => simp [keysOf]
  | cons p t ih =>
    obtain ⟨a, b⟩ := p
    by_cases hk : a = k
    · rw [lookup_cons_eq a b t k hk]
      simp [keysOf, hk]
    · rw [lookup_cons_ne a b t k hk]
      unfold keysOf at *
      simp only [List.map_cons, List.mem_cons, ih]
      constructor
      · intro hn
        rintro (rfl | hmem)
        · exact hk rfl
        · exact hn hmem
      · intro hn hmem
        exact hn (Or.inr hmem)

theorem lookup_removeKV_self (m : List (String × Value)) (k : String) :
    List.lookup k (removeKV m k) = none := by
  rw [lookup_eq_none_iff, mem_keysOf_removeKV]
  simp


theorem mem_keysOf_iff_exists (m : List (String × Value)) (k : String) :
    k ∈ keysOf m ↔ ∃ p ∈ m, p.1 = k := by
  unfold keysOf
  simp [List.mem_map]

theorem lookup_map_replace (m : List (String × Value)) (k : String) (v : Value)
    (hany : m.any (fun p => decide (p.1 = k)) = true) :
    List.lookup k (m.map (fun p => if p.1 = k then (k, v) else p)) = some v := by
  induction m with
  | nil => simp at hany
  | cons p t ih =>
    obtain ⟨a, b⟩ := p
    by_cases hak : a = k
    · subst hak
      rw [List.map_cons, if_pos rfl]
      exact lookup_cons_eq a v _ a rfl
    · rw [List.map_cons, if_neg hak, lookup_cons_ne a b _ k hak]
      apply ih
      simpa [List.any_cons, hak] using hany

theorem lookup_map_replace_ne (m : List (String × Value)) (k k' : String)
    (v : Value) (h : k' ≠ k) :
    List.lookup k' (m.map (fun p => if p.1 = k then (k, v) else p)) =
      List.lookup k' m := by
  induction m with
  | nil => rfl
  | cons p t ih =>
    obtain ⟨a, b⟩ := p
    by_cases hak : a = k
    · subst hak
      rw [List.map_cons, if_pos rfl, lookup_cons_ne a v _ k' (Ne.symm h),
        lookup_cons_ne a b t k' (Ne.symm h), ih]
    · by_cases hak' : a = k'
      · rw [List.map_cons, if_neg hak, lookup_cons_eq a b _ k' hak',
          lookup_cons_eq a b t k' hak']
      · rw [List.map_cons, if_neg hak, lookup_cons_ne a b _ k' hak',
          lookup_cons_ne a b t k' hak', ih]

theorem lookup_append_singleton_ne (m : List (String × Value)) (k k' : String)
    (v : Value) (h : k' ≠ k) :
    List.lookup k' (m ++ [(k, v)]) = List.lookup k' m := by
  induction m with
  | nil =>
    simp only [List.nil_append]
    rw [lookup_cons_ne k v [] k' (Ne.symm h)]
  | cons p t ih =>
    obtain ⟨a, b⟩ := p
    by_cases hak' : a = k'
    · rw [List.cons_append, lookup_cons_eq a b _ k' hak',
        lookup_cons_eq a b t k' hak']
    · rw [List.cons_append, lookup_cons_ne a b _ k' hak',
        lookup_cons_ne a b t k' hak', ih]

theorem lookup_insertKV_self (m : List (String × Value)) (k : String) (v : Value) :
    List.lookup k (insertKV m k v) = some v := by
  unfold insertKV
  split
  · rename_i hany
    exact lookup_map_replace m k v hany
  · rename_i hnot
    have hk : k ∉ keysOf m := by
      rw [mem_keysOf_iff_exists]
      rintro ⟨p, hp, hpk⟩
      exact hnot (List.any_eq_true.mpr ⟨p, hp, by simpa using hpk⟩)
    induction m with
    | nil =>
      simp only [List.nil_append]
      exact lookup_cons_eq k v [] k rfl
    | cons p t ih =>
      obtain ⟨a, b⟩ := p
      have hak : a ≠ k := by
        intro hcontra
        exact hk (by rw [mem_keysOf_iff_exists]; exact ⟨(a, b), by simp, hcontra⟩)
      rw [List.cons_append, lookup_cons_ne a b _ k hak]
      apply ih
      · intro hcontra
        apply hnot
        rw [List.any_eq_true] at hcontra ⊢
        obtain ⟨q, hq, hqk⟩ := hcontra
        exact ⟨q, by simp [hq], hqk⟩
      · intro hcontra
        apply hk
        rw [mem_keysOf_iff_exists] at hcontra ⊢
        obtain ⟨q, hq, hqk⟩ := hcontra
        exact ⟨q, by simp [hq], hqk⟩

theorem lookup_insertKV_ne (m : List (String × Value)) (k k' : String) (v : Value)
    (h : k' ≠ k) : List.lookup k' (insertKV m k v) = List.lookup k' m := by
  unfold insertKV
  split
  · exact lookup_map_replace_ne m k k' v h
  · exact lookup_append_singleton_ne m k k' v h

theorem lookup_renameKey_other (m : List (String × Value)) (src dst k' : String)
    (h1 : k' ≠ src) (h2 : k' ≠ dst) :
    List.lookup k' (renameKey m src dst) = List.lookup k' m := by
  unfold renameKey
  split
  · rfl
  · rw [lookup_insertKV_ne _ _ _ _ h2, lookup_removeKV_ne _ _ _ h1]

theorem mem_keysOf_renameKey_of_mem (m : List (String × Value)) (src dst k' : String)
    (hmem : k' ∈ keysOf m) (hne : k' ≠ src) :
    k' ∈ keysOf (renameKey m src dst) := by
  unfold renameKey
  split
  · exact hmem
  · rw [mem_keysOf_insertKV]
    exact Or.inl ((mem_keysOf_removeKV m src k').mpr ⟨hmem, hne⟩)

theorem mem_keysOf_renameKey_elim (m : List (String × Value)) (src dst k' : String)
    (h : k' ∈ keysOf (renameKey m src dst)) : k' = dst ∨ k' ∈ keysOf m := by
  unfold renameKey at h
  split at h
  · exact Or.inr h
  · rw [mem_keysOf_insertKV] at h
    rcases h with h | h
    · exact Or.inr ((mem_keysOf_removeKV m src k').mp h).1
    · exact Or.inl h

/-! ### Key-set and `date` facts about the normalization -/

theorem mem_keysOf_normalizeEvent (id : String) (now : Int) (e : LogEvent)
    (k : String) :
    k ∈ keysOf (normalizeEvent id now e) ↔
      k = "attributes" ∨
        (k ∈ RESERVED_ATTRIBUTES ∧ k ∈ keysOf (normalizePre id now e)) := by
  unfold normalizeEvent
  rw [mem_keysOf_insertKV,
    keysOf_filter_key _ (fun s => decide (s ∈ RESERVED_ATTRIBUTES)) k]
  constructor
  · rintro (⟨hmem, hres⟩ | rfl)
    · exact Or.inr ⟨by simpa using hres, hmem⟩
    · exact Or.inl rfl
  · rintro (rfl | ⟨hres, hmem⟩)
    · exact Or.inr rfl
    · exact Or.inl ⟨hmem, by simpa using hres⟩

theorem lookup_attributes_normalizeEvent (id : String) (now : Int) (e : LogEvent) :
    List.lookup "attributes" (normalizeEvent id now e) =
      some (Value.object ((normalizePre id now e).filter
        (fun kv => decide (kv.1 ∉ RESERVED_ATTRIBUTES)))) :=
  lookup_insertKV_self _ _ _

theorem attributes_keys_not_reserved (id : String) (now : Int) (e : LogEvent)
    (k : String)
    (h : k ∈ keysOf ((normalizePre id now e).filter
      (fun kv => decide (kv.1 ∉ RESERVED_ATTRIBUTES)))) :
    k ∉ RESERVED_ATTRIBUTES := by
  rw [keysOf_filter_key _ (fun s => decide (s ∉ RESERVED_ATTRIBUTES)) k] at h
  simpa using h.2

theorem mem_reserved_normalizePre (id : String) (now : Int) (e : LogEvent)
    (k : String) (hk1 : k ∈ keysOf (insertKV
      (removeKV (insertKV e.fields "_id" (Value.bytes id)) e.timestamp_key)
      "date" (Value.bytes (rfc3339Millis (match List.lookup e.timestamp_key
        (insertKV e.fields "_id" (Value.bytes id)) with
        | some (Value.timestamp t) => t
        | _ => now)))))
    (hmp : ∀ p, e.message_path = some p → p ≠ k)
    (hhp : ∀ p, e.host_path = some p → p ≠ k) :
    k ∈ keysOf (normalizePre id now e) := by
  unfold normalizePre
  cases hmsg : e.message_path with
  | none =>
    cases hhost : e.host_path with
    | none => exact hk1
    | some q =>
      exact mem_keysOf_renameKey_of_mem _ q "host" k hk1 (fun hc =>
        hhp q hhost (by rw [hc]))
  | some p =>
    cases hhost : e.host_path with
    | none =>
      exact mem_keysOf_renameKey_of_mem _ p "message" k hk1 (fun hc =>
        hmp p hmsg (by rw [hc]))
    | some q =>
      refine mem_keysOf_renameKey_of_mem _ q "host" k ?_ (fun hc =>
        hhp q hhost (by rw [hc]))
      exact mem_keysOf_renameKey_of_mem _ p "message" k hk1 (fun hc =>
        hmp p hmsg (by rw [hc]))

theorem id_mem_normalizePre (id : String) (now : Int) (e : LogEvent)
    (hts : e.timestamp_key ≠ "_id")
    (hmp : ∀ p, e.message_path = some p → p ≠ "_id")
    (hhp : ∀ p, e.host_path = some p → p ≠ "_id") :
    "_id" ∈ keysOf (normalizePre id now e) := by
  apply mem_reserved_normalizePre id now e "_id" _ hmp hhp
  rw [mem_keysOf_insertKV]
  refine Or.inl ((mem_keysOf_removeKV _ _ _).mpr ⟨?_, fun hc => hts hc.symm⟩)
  rw [mem_keysOf_insertKV]
  exact Or.inr rfl

theorem date_mem_normalizePre (id : String) (now : Int) (e : LogEvent)
    (hmp : ∀ p, e.message_path = some p → p ≠ "date")
    (hhp : ∀ p, e.host_path = some p → p ≠ "date") :
    "date" ∈ keysOf (normalizePre id now e) := by
  apply mem_reserved_normalizePre id now e "date" _ hmp hhp
  rw [mem_keysOf_insertKV]
  exact Or.inr rfl

theorem timestamp_not_mem_normalizePre (id : String) (now : Int) (e : LogEvent)
    (hts : e.timestamp_key = "timestamp") :
    "timestamp" ∉ keysOf (normalizePre id now e) := by
  intro h
  unfold normalizePre at h
  have step3 : "timestamp" ∉ keysOf (insertKV
      (removeKV (insertKV e.fields "_id" (Value.bytes id)) e.timestamp_key)
      "date" (Value.bytes (rfc3339Millis (match List.lookup e.timestamp_key
        (insertKV e.fields "_id" (Value.bytes id)) with
        | some (Value.timestamp t) => t
        | _ => now)))) := by
    intro hc
    rw [mem_keysOf_insertKV] at hc
    rcases hc with hc | hc
    · rw [mem_keysOf_removeKV, hts] at hc
      exact hc.2 rfl
    · exact absurd hc (by decide)
  cases hmsg : e.message_path with
  | none =>
    cases hhost : e.host_path with
    | none =>
      rw [hmsg, hhost] at h
      exact step3 h
    | some q =>
      rw [hmsg, hhost] at h
      rcases mem_keysOf_renameKey_elim _ q "host" _ h with hc | hc
      · exact absurd hc (by decide)
      · exact step3 hc
  | some p =>
    cases hhost : e.host_path with
    | none =>
      rw [hmsg, hhost] at h
      rcases mem_keysOf_renameKey_elim _ p "message" _ h with hc | hc
      · exact absurd hc (by decide)
      · exact step3 hc
    | some q =>
      rw [hmsg, hhost] at h
      rcases mem_keysOf_renameKey_elim _ q "host" _ h with hc | hc
      · exact absurd hc (by decide)
      rcases mem_keysOf_renameKey_elim _ p "message" _ hc with hc2 | hc2
      · exact absurd hc2 (by decide)
      · exact step3 hc2

theorem lookup_date_normalizeEvent (id : String) (now : Int) (e : LogEvent)
    (hts : e.timestamp_key = "timestamp")
    (hmp : e.message_path ≠ some "date") (hhp : e.host_path ≠ some "date") :
    List.lookup "date" (normalizeEvent id now e) =
      some (Value.bytes (rfc3339Millis
        (match List.lookup "timestamp" e.fields with
         | some (Value.timestamp t) => t
         | _ => now))) := by
  unfold normalizeEvent
  rw [lookup_insertKV_ne _ _ _ _ (by decide),
    lookup_filter_key _ (fun s => decide (s ∈ RESERVED_ATTRIBUTES)) "date"
      (by decide)]
  have hlook : List.lookup e.timestamp_key
      (insertKV e.fields "_id" (Value.bytes id)) =
      List.lookup "timestamp" e.fields := by
    rw [hts, lookup_insertKV_ne _ _ _ _ (by decide)]
  unfold normalizePre
  cases hmsg : e.message_path with
  | none =>
    cases hhost : e.host_path with
    | none =>
      rw [lookup_insertKV_self, hlook]
    | some q =>
      rw [lookup_renameKey_other _ q "host" "date"
        (fun hc => hhp (by rw [hhost, hc])) (by decide),
        lookup_insertKV_self, hlook]
  | some p =>
    cases hhost : e.host_path with
    | none =>
      rw [lookup_renameKey_other _ p "message" "date"
        (fun hc => hmp (by rw [hmsg, hc])) (by decide),
        lookup_insertKV_self, hlook]
    | some q =>
      rw [lookup_renameKey_other _ q "host" "date"
        (fun hc => hhp (by rw [hhost, hc])) (by decide),
        lookup_renameKey_other _ p "message" "date"
        (fun hc => hmp (by rw [hmsg, hc])) (by decide),
        lookup_insertKV_self, hlook]

/-! ### `generate_object_key` and the `//` collapsing

`generate_object_key` formats
`"{key_prefix}/{partition_key}/archive_{uuid}.json.gz"` and then runs
Rust's `str::replace(.., "//", "/")`: a single left-to-right,
non-overlapping replacement pass (the output is not rescanned).
`replaceDS` is that replacement pass specialised to the pattern `"//"`;
`Uuid::new_v4()` is a fresh random draw and is passed in as the `uuid`
argument. -/

/-- One left-to-right non-overlapping pass replacing `"//"` by `"/"`
(`str::replace` with pattern `"//"`). -/
def replaceDS : List Char → List Char
  | '/' :: '/' :: rest => '/' :: replaceDS rest
  | c :: rest => c :: replaceDS rest
  | [] => []

/-- Whether the character list contains `"//"` as a substring. -/
def hasDoubleSlash : List Char → Bool
  | a :: b :: rest => (a = '/' && b = '/') || hasDoubleSlash (b :: rest)
  | _ => false

/-- Whether the character list contains `"///"` as a substring. -/
def hasTripleSlash : List Char → Bool
  | a :: b :: c :: rest =>
    (a = '/' && b = '/' && c = '/') || hasTripleSlash (b :: c :: rest)
  | _ => false

/-- `generate_object_key` from `datadog_archives.rs` with the random UUID
filename made an explicit argument (the only impure input). -/
def generate_object_key (keyPrefix : Option String) (partition_key : String)
    (uuid : String) : String :=
  ⟨replaceDS (keyPrefix.getD "" ++ "/" ++ partition_key ++ "/" ++ "archive_" ++
    uuid ++ "." ++ "json.gz").data⟩

theorem replaceDS_cons_ne (c : Char) (t : List Char) (h : c ≠ '/') :
    replaceDS (c :: t) = c :: replaceDS t :=
  replaceDS.eq_2 c t (fun _ hc _ => h hc)

theorem replaceDS_cons_head (d : Char) (t : List Char) :
    ∃ t', replaceDS (d :: t) = d :: t' := by
  by_cases hd : d = '/'
  · subst hd
    cases t with
    | nil => exact ⟨replaceDS [], replaceDS.eq_2 '/' [] (fun _ _ ht => by cases ht)⟩
    | cons x t2 =>
      by_cases hx : x = '/'
      · subst hx
        exact ⟨replaceDS t2, rfl⟩
      · exact ⟨replaceDS (x :: t2), replaceDS.eq_2 '/' (x :: t2)
          (fun _ _ ht => hx (by injection ht))⟩
  · exact ⟨replaceDS t, replaceDS_cons_ne d t hd⟩

/-- The single replacement pass removes every `"//"` provided the input has
no run of three or more consecutive slashes. -/
theorem replaceDS_no_double (l : List Char) (h : hasTripleSlash l = false) :
    hasDoubleSlash (replaceDS l) = false := by
  induction l using replaceDS.induct with
  | case1 rest ih =>
    rw [show replaceDS ('/' :: '/' :: rest) = '/' :: replaceDS rest from rfl]
    cases rest with
    | nil => rfl
    | cons c t =>
      have hc : c ≠ '/' := by
        intro hcontra
        subst hcontra
        simp [hasTripleSlash] at h
      have hts : hasTripleSlash (c :: t) = false := by
        cases t with
        | nil => rfl
        | cons e t3 =>
          simp only [hasTripleSlash, Bool.or_eq_false_iff] at h
          exact h.2.2
      obtain ⟨t', ht'⟩ := replaceDS_cons_head c t
      rw [ht']
      simp only [hasDoubleSlash, Bool.or_eq_false_iff]
      constructor
      · simp [hc]
      · rw [← ht']
        exact ih hts
  | case2 c rest hg ih =>
    rw [replaceDS.eq_2 c rest hg]
    cases rest with
    | nil => rfl
    | cons d t =>
      obtain ⟨t', ht'⟩ := replaceDS_cons_head d t
      rw [ht']
      simp only [hasDoubleSlash, Bool.or_eq_false_iff]
      constructor
      · by_cases hcs : c = '/'
        · have hd : d ≠ '/' := by
            intro hct
            exact hg t hcs (by rw [hct])
          simp [hd]
        · simp [hcs]
      · rw [← ht']
        apply ih
        cases t with
        | nil => rfl
        | cons e t3 =>
          simp only [hasTripleSlash, Bool.or_eq_false_iff] at h
          exact h.2
  | case3 => rfl

theorem replaceDS_of_no_slash (l : List Char) (h : ∀ c ∈ l, c ≠ '/') :
    replaceDS l = l := by
  induction l using replaceDS.induct with
  | case1 rest ih => exact absurd rfl (h '/' (by simp))
  | case2 c rest hg ih =>
    rw [replaceDS.eq_2 c rest hg, ih (fun x hx => h x (by simp [hx]))]
  | case3 => rfl

theorem replaceDS_append_no_slash (L R : List Char) (h : ∀ c ∈ R, c ≠ '/') :
    replaceDS (L ++ R) = replaceDS L ++ R := by
  induction L using replaceDS.induct with
  | case1 rest ih =>
    rw [show ('/' :: '/' :: rest) ++ R = '/' :: '/' :: (rest ++ R) from rfl]
    rw [show replaceDS ('/' :: '/' :: (rest ++ R)) =
      '/' :: replaceDS (rest ++ R) from rfl, ih]
    rfl
  | case2 c rest hg ih =>
    rw [show (c :: rest) ++ R = c :: (rest ++ R) from rfl]
    by_cases hcs : c = '/'
    · subst hcs
      cases rest with
      | nil =>
        rw [replaceDS.eq_2 '/' [] (fun _ _ ht => by cases ht)]
        cases R with
        | nil => rfl
        | cons r R' =>
          have hr : r ≠ '/' := h r (by simp)
          rw [List.nil_append,
            replaceDS.eq_2 '/' (r :: R') (fun _ _ ht => hr (by injection ht)),
            replaceDS_of_no_slash (r :: R') h]
          rfl
      | cons x t =>
        have hx : x ≠ '/' := fun hc => hg t rfl (by rw [hc])
        rw [show (x :: t) ++ R = x :: (t ++ R) from rfl,
          replaceDS.eq_2 '/' (x :: (t ++ R))
            (fun _ _ ht => hx (by injection ht)),
          replaceDS.eq_2 '/' (x :: t) (fun _ _ ht => hx (by injection ht))]
        rw [show (x :: t) ++ R = x :: (t ++ R) from rfl] at ih
        rw [ih]
        rfl
    · rw [replaceDS_cons_ne c (rest ++ R) hcs, replaceDS_cons_ne c rest hcs, ih]
      rfl
  | case3 =>
    rw [List.nil_append, replaceDS_of_no_slash R h]
    rfl

/-! ### Backend request builders: `split_input` / `build_request`

Finalizers (delivery tokens) are modelled as opaque numbers.
`Vec<Event>::take_finalizers` drains every event's finalizers in order and
merges them.  `RequestMetadataBuilder::from_events` (crate `vector_common`,
outside `src/`) is modelled from the spec as event count plus a byte-size
estimate computed by a caller-supplied size function.  The random
`Uuid::new_v4()` drawn inside `build_request`'s call to
`generate_object_key` is an explicit `uuid` argument. -/

/-- Modelled from the spec: `take_finalizers` on a `Vec<Event>`
(`vector-core`'s `Finalizable`, outside `src/`) — the drained tokens of
every event merged in order, and the events with their finalizers
emptied. -/
def takeFinalizers (evs : List Event) : List Nat × List Event :=
  ((evs.map Event.finalizers).flatten,
    evs.map (fun e => { e with finalizers := [] }))

/-- Modelled from the spec: `RequestMetadataBuilder` event count/size
accounting (`vector_common`, outside `src/`). -/
structure RequestMetadataBuilder where
  event_count : Nat
  events_byte_size : Nat

/-- Modelled from the spec: `RequestMetadataBuilder::from_events` with the
byte-size estimator passed explicitly. -/
def RequestMetadataBuilder.from_events (sz : Event → Nat) (evs : List Event) :
    RequestMetadataBuilder :=
  { event_count := evs.length, events_byte_size := (evs.map sz).sum }

/-- Modelled from the spec: the built `RequestMetadata` (same accounting). -/
structure RequestMetadata where
  event_count : Nat
  events_byte_size : Nat

/-- Modelled from the spec: `S3PartitionKey` (crate `s3_common`, outside
`src/`) — the rendered key prefix together with the optional SSE-KMS key
id. -/
structure S3PartitionKey where
  keyPrefix : String
  ssekms_key_id : Option String
  deriving DecidableEq

/-- Modelled from the spec: `S3Metadata` (crate `s3_common`, outside
`src/`). -/
structure S3Metadata where
  partition_key : S3PartitionKey
  s3_key : String
  finalizers : List Nat

/-- `DatadogS3RequestBuilder` configuration (bucket and key prefix; the S3
options and encoding state do not affect the claims' statements about
finalizer routing and are carried by the functions below as needed). -/
structure DatadogS3RequestBuilder where
  bucket : String
  keyPrefix : Option String

/-- `DatadogS3RequestBuilder::split_input`. -/
def DatadogS3RequestBuilder.split_input (sz : Event → Nat)
    (input : S3PartitionKey × List Event) :
    S3Metadata × RequestMetadataBuilder × List Event :=
  let partition_key := input.1
  let p := takeFinalizers input.2
  let builder := RequestMetadataBuilder.from_events sz p.2
  ({ partition_key := partition_key, s3_key := partition_key.keyPrefix,
     finalizers := p.1 }, builder, p.2)

/-- `S3Request` (the fields the claims are about; body is the encoded
payload bytes). -/
structure S3Request where
  body : List Nat
  bucket : String
  metadata : S3Metadata
  request_metadata : RequestMetadata
  content_encoding : Option String

/-- `DatadogS3RequestBuilder::build_request` (the fresh UUID drawn inside
`generate_object_key` is the `uuid` argument). -/
def DatadogS3RequestBuilder.build_request (b : DatadogS3RequestBuilder)
    (uuid : String) (metadata : S3Metadata) (request_metadata : RequestMetadata)
    (payload : List Nat) : S3Request :=
  { body := payload,
    bucket := b.bucket,
    metadata := { metadata with
      s3_key := generate_object_key b.keyPrefix metadata.s3_key uuid },
    request_metadata := request_metadata,
    content_encoding := some "gzip" }

/-- `DatadogGcsRequestBuilder` configuration. -/
structure DatadogGcsRequestBuilder where
  bucket : String
  keyPrefix : Option String

/-- `DatadogGcsRequestBuilder::split_input` (the metadata builder is taken
from the events before the finalizers are drained, as in the source). -/
def DatadogGcsRequestBuilder.split_input (sz : Event → Nat)
    (input : String × List Event) :
    (String × List Nat) × RequestMetadataBuilder × List Event :=
  let metadata_builder := RequestMetadataBuilder.from_events sz input.2
  let p := takeFinalizers input.2
  ((input.1, p.1), metadata_builder, p.2)

/-- Modelled from the spec: `GcsRequest` (crate `gcs_common`, outside
`src/`; the fields the claims are about). -/
structure GcsRequest where
  key : String
  body : List Nat
  finalizers : List Nat
  metadata : RequestMetadata

/-- `DatadogGcsRequestBuilder::build_request`. -/
def DatadogGcsRequestBuilder.build_request (b : DatadogGcsRequestBuilder)
    (uuid : String) (dd_metadata : String × List Nat)
    (metadata : RequestMetadata) (payload : List Nat) : GcsRequest :=
  { key := generate_object_key b.keyPrefix dd_metadata.1 uuid,
    body := payload,
    finalizers := dd_metadata.2,
    metadata := metadata }

/-- Modelled from the spec: `AzureBlobMetadata` (crate `azure_common`,
outside `src/`). -/
structure AzureBlobMetadata where
  partition_key : String
  count : Nat
  byte_size : Nat
  finalizers : List Nat

/-- `DatadogAzureRequestBuilder` configuration. -/
structure DatadogAzureRequestBuilder where
  container_name : String
  blobPrefix : Option String

/-- `DatadogAzureRequestBuilder::split_input` (`byte_size` is the external
`estimated_json_encoded_size_of`, passed as `sz`). -/
def DatadogAzureRequestBuilder.split_input (sz : Event → Nat)
    (input : String × List Event) :
    AzureBlobMetadata × RequestMetadataBuilder × List Event :=
  let partition_key := input.1
  let p := takeFinalizers input.2
  let metadata : AzureBlobMetadata :=
    { partition_key := partition_key, count := p.2.length,
      byte_size := (p.2.map sz).sum, finalizers := p.1 }
  let builder := RequestMetadataBuilder.from_events sz p.2
  (metadata, builder, p.2)

/-- Modelled from the spec: `AzureBlobRequest` (crate `azure_common`,
outside `src/`). -/
structure AzureBlobRequest where
  blob_data : List Nat
  content_encoding : Option String
  content_type : String
  metadata : AzureBlobMetadata
  request_metadata : RequestMetadata

/-- `DatadogAzureRequestBuilder::build_request`. -/
def DatadogAzureRequestBuilder.build_request (b : DatadogAzureRequestBuilder)
    (uuid : String) (metadata : AzureBlobMetadata)
    (request_metadata : RequestMetadata) (payload : List Nat) :
    AzureBlobRequest :=
  { blob_data := payload,
    content_encoding := some "gzip",
    content_type := "application/gzip",
    metadata := { metadata with
      partition_key :=
        generate_object_key b.blobPrefix metadata.partition_key uuid },
    request_metadata := request_metadata }

/-! ### `aws_s3` storage-class validation (`build_s3_sink`) -/

/-- Modelled from the spec: `S3StorageClass` (crate `s3_common`, outside
`src/`; the variants are those the repository's own storage-class test
enumerates). -/
inductive S3StorageClass where
  | Standard
  | ReducedRedundancy
  | IntelligentTiering
  | StandardIa
  | OnezoneIa
  | Glacier
  | DeepArchive
  deriving DecidableEq

/-- The `{:?}` (Debug) rendering of a storage class. -/
def S3StorageClass.debugName : S3StorageClass → String
  | .Standard => "Standard"
  | .ReducedRedundancy => "ReducedRedundancy"
  | .IntelligentTiering => "IntelligentTiering"
  | .StandardIa => "StandardIa"
  | .OnezoneIa => "OnezoneIa"
  | .Glacier => "Glacier"
  | .DeepArchive => "DeepArchive"

/-- `ConfigError` from `datadog_archives.rs`. -/
inductive ConfigError where
  | UnsupportedService (service : String)
  | UnsupportedStorageClass (storage_class : String)
  deriving DecidableEq

/-- The `snafu(display(..))` message of a `ConfigError`. -/
def ConfigError.display : ConfigError → String
  | .UnsupportedService s => "Unsupported service: " ++ s
  | .UnsupportedStorageClass s => "Unsupported storage class: " ++ s

/-- `S3Options` from `datadog_archives.rs` (the fields besides
`storage_class` are opaque pass-through options). -/
structure S3Options where
  acl : Option String
  grant_full_control : Option String
  grant_read : Option String
  grant_read_acp : Option String
  grant_write_acp : Option String
  server_side_encryption : Option String
  ssekms_key_id : Option String
  storage_class : S3StorageClass
  tags : Option (List (String × String))

/-- The storage-class validation performed by
`DatadogArchivesSinkConfig::build_s3_sink` at sink-construction time:
`DeepArchive` and `Glacier` are rejected with
`ConfigError::UnsupportedStorageClass` before the request builder is
created; every other class yields the `DatadogS3RequestBuilder` (service
and healthcheck construction are external I/O and outside the model). -/
def build_s3_sink (bucket : String) (keyPrefix : Option String)
    (s3_options : S3Options) : Except ConfigError DatadogS3RequestBuilder :=
  match s3_options.storage_class with
  | .DeepArchive =>
    .error (.UnsupportedStorageClass (S3StorageClass.debugName .DeepArchive))
  | .Glacier =>
    .error (.UnsupportedStorageClass (S3StorageClass.debugName .Glacier))
  | _ => .ok { bucket := bucket, keyPrefix := keyPrefix }

/-! ### `AmqpEncoder::encode_input` (`src/sinks/amqp/encoder.rs`)

The inner `codecs` encoder and the `Transformer` are external crates; they
are modelled as function-valued fields.  The writer is the byte list
written so far; a successful call appends the whole encoded body
(`write_all`) and returns its length, a failed inner encode writes nothing
and maps the error to `io::Error::new(ErrorKind::Other, "unable to
encode")`. -/

/-- An `io::Error`: its `ErrorKind` (as a string) and message. -/
structure IOError where
  kind : String
  message : String
  deriving DecidableEq

/-- `AmqpEncoder`, with the external encoder/transformer as functions. -/
structure AmqpEncoder where
  encoder : Event → Option (List Nat)
  transformer : Event → Event

/-- `AmqpEncoder::encode_input`: returns the byte count written and the
writer's new contents, or the error. -/
def AmqpEncoder.encode_input (a : AmqpEncoder) (input : Event)
    (writer : List Nat) : Except IOError (Nat × List Nat) :=
  match a.encoder (a.transformer input) with
  | none => .error { kind := "Other", message := "unable to encode" }
  | some body => .ok (body.length, writer ++ body)

/-! ### Claim theorems -/

/-- Claim C1, counterexample to the claim as stated: with the key prefix
`"logs/"` (the trailing-slash form the configuration docs call for) and the
partition key `"/dt=20210823/hour=16/"` that `KEY_TEMPLATE` actually
produces, the formatted string contains `"///"`, and the single
non-rescanning `str::replace` pass leaves a `"//"` in the returned object
key. -/
theorem c1_counterexample :
    hasDoubleSlash (generate_object_key (some "logs/") "/dt=20210823/hour=16/"
      "0d4e3c9a-55f1-4a8b-9c7d-2f6e8a1b3c5d").data = true := by
  decide

/-- Claim C1 (corrected): `generate_object_key` returns a string with no
`"//"` whenever the formatted string
`"{key_prefix}/{partition_key}/archive_{uuid}.json.gz"` contains no run of
three or more consecutive `'/'` characters (in particular for a `None` or
empty key prefix, and for any prefix not ending in `'/'`, with the sink's
`//`-free partition keys); the single replacement pass cannot be relied on
beyond that, as `c1_counterexample` shows. -/
theorem c1_no_double_slash (kp : Option String) (pk uuid : String)
    (h : hasTripleSlash (kp.getD "" ++ "/" ++ pk ++ "/" ++ "archive_" ++
      uuid ++ "." ++ "json.gz").data = false) :
    hasDoubleSlash (generate_object_key kp pk uuid).data = false :=
  replaceDS_no_double _ h

/-- Witness for `c1_no_double_slash`: the empty-prefix case with the
template's partition key. -/
theorem c1_no_double_slash_witness :
    hasDoubleSlash (generate_object_key none "/dt=20210823/hour=16/"
      "0d4e3c9a-55f1-4a8b-9c7d-2f6e8a1b3c5d").data = false :=
  c1_no_double_slash none "/dt=20210823/hour=16/"
    "0d4e3c9a-55f1-4a8b-9c7d-2f6e8a1b3c5d" (by decide)

/-- Claim C8: `build_s3_sink` rejects the `DeepArchive` and `Glacier`
storage classes at sink-construction time with a
`ConfigError::UnsupportedStorageClass` whose display string is
`"Unsupported storage class: <class>"`, before any request builder exists;
every other storage class yields the request builder. -/
theorem c8_storage_class_validation :
    (∀ (bucket : String) (kp : Option String) (opts : S3Options),
      opts.storage_class = S3StorageClass.DeepArchive ∨
        opts.storage_class = S3StorageClass.Glacier →
      build_s3_sink bucket kp opts =
        .error (.UnsupportedStorageClass opts.storage_class.debugName) ∧
      ConfigError.display
          (.UnsupportedStorageClass opts.storage_class.debugName) =
        "Unsupported storage class: " ++ opts.storage_class.debugName) ∧
    (∀ (bucket : String) (kp : Option String) (opts : S3Options),
      opts.storage_class ≠ S3StorageClass.DeepArchive →
      opts.storage_class ≠ S3StorageClass.Glacier →
      build_s3_sink bucket kp opts = .ok { bucket := bucket, keyPrefix := kp }) := by
  constructor
  · intro bucket kp opts h
    rcases h with h | h <;>
    · unfold build_s3_sink
      rw [h]
      exact ⟨rfl, rfl⟩
  · intro bucket kp opts h1 h2
    unfold build_s3_sink
    cases hc : opts.storage_class <;> first
      | rfl
      | exact absurd hc (by simp_all)

/-- Witness for `c8_storage_class_validation`: `DeepArchive` fails
construction with the descriptive message, `Standard` succeeds. -/
theorem c8_storage_class_validation_witness :
    build_s3_sink "vector-datadog-archives" (some "logs/")
        { acl := none, grant_full_control := none, grant_read := none,
          grant_read_acp := none, grant_write_acp := none,
          server_side_encryption := none, ssekms_key_id := none,
          storage_class := S3StorageClass.DeepArchive, tags := none } =
      .error (.UnsupportedStorageClass "DeepArchive") ∧
    ConfigError.display (.UnsupportedStorageClass "DeepArchive") =
      "Unsupported storage class: DeepArchive" ∧
    build_s3_sink "vector-datadog-archives" (some "logs/")
        { acl := none, grant_full_control := none, grant_read := none,
          grant_read_acp := none, grant_write_acp := none,
          server_side_encryption := none, ssekms_key_id := none,
          storage_class := S3StorageClass.Standard, tags := none } =
      .ok { bucket := "vector-datadog-archives", keyPrefix := some "logs/" } := by
  refine ⟨?_, ?_, ?_⟩
  · exact (c8_storage_class_validation.1 "vector-datadog-archives" (some "logs/")
      _ (Or.inl rfl)).1
  · exact (c8_storage_class_validation.1 "vector-datadog-archives" (some "logs/")
      { acl := none, grant_full_control := none, grant_read := none,
        grant_read_acp := none, grant_write_acp := none,
        server_side_encryption := none, ssekms_key_id := none,
        storage_class := S3StorageClass.DeepArchive, tags := none }
      (Or.inl rfl)).2
  · exact c8_storage_class_validation.2 "vector-datadog-archives" (some "logs/")
      _ (by decide) (by decide)

/-- Claim C9: two invocations of `generate_object_key` return distinct
object keys whenever the freshly drawn UUIDs differ — for any prefixes and
partition keys, identical or not (the UUID renders as 36 characters, none
of them `'/'`; the equal-length and slash-free hypotheses record that
format).  The UUID argument is independent of any batch content by
construction. -/
theorem c9_object_key_uniqueness (kp₁ kp₂ : Option String) (pk₁ pk₂ : String)
    (u₁ u₂ : String)
    (hs₁ : ∀ c ∈ u₁.data, c ≠ '/') (hs₂ : ∀ c ∈ u₂.data, c ≠ '/')
    (hlen : u₁.data.length = u₂.data.length) (hne : u₁ ≠ u₂) :
    generate_object_key kp₁ pk₁ u₁ ≠ generate_object_key kp₂ pk₂ u₂ := by
  intro h
  apply hne
  have hd := congrArg String.data h
  have hsfx : ∀ c ∈ (".json.gz" : String).data, c ≠ '/' := by decide
  have hre : ∀ (kp : Option String) (pk u : String), (∀ c ∈ u.data, c ≠ '/') →
      (generate_object_key kp pk u).data =
        replaceDS (kp.getD "" ++ "/" ++ pk ++ "/" ++ "archive_").data ++
          (u.data ++ (".json.gz" : String).data) := by
    intro kp pk u hu
    show replaceDS (kp.getD "" ++ "/" ++ pk ++ "/" ++ "archive_" ++ u ++ "." ++
      "json.gz").data = _
    have hassoc : (kp.getD "" ++ "/" ++ pk ++ "/" ++ "archive_" ++ u ++ "." ++
        "json.gz").data = (kp.getD "" ++ "/" ++ pk ++ "/" ++ "archive_").data ++
          (u.data ++ (".json.gz" : String).data) := by
      simp only [String.data_append, List.append_assoc]
      rfl
    rw [hassoc, replaceDS_append_no_slash]
    intro c hc
    rcases List.mem_append.mp hc with hc | hc
    · exact hu c hc
    · exact hsfx c hc
  rw [hre kp₁ pk₁ u₁ hs₁, hre kp₂ pk₂ u₂ hs₂] at hd
  have hlb : (replaceDS (kp₁.getD "" ++ "/" ++ pk₁ ++ "/" ++
      "archive_").data).length =
      (replaceDS (kp₂.getD "" ++ "/" ++ pk₂ ++ "/" ++ "archive_").data).length := by
    have := congrArg List.length hd
    simp only [List.length_append] at this
    omega
  have hu12 := (List.append_inj hd hlb).2
  have := (List.append_inj' hu12 rfl).1
  exact String.ext this

/-- Witness for `c9_object_key_uniqueness`: two flushes with the identical
partition key and prefix but different UUID draws get distinct keys. -/
theorem c9_object_key_uniqueness_witness :
    generate_object_key (some "audit") "/dt=20210823/hour=16/"
        "0d4e3c9a-55f1-4a8b-9c7d-2f6e8a1b3c5d" ≠
      generate_object_key (some "audit") "/dt=20210823/hour=16/"
        "7b2f9e14-c3a6-4d58-8e0b-5a9c1d7f2e64" :=
  c9_object_key_uniqueness (some "audit") (some "audit")
    "/dt=20210823/hour=16/" "/dt=20210823/hour=16/"
    "0d4e3c9a-55f1-4a8b-9c7d-2f6e8a1b3c5d"
    "7b2f9e14-c3a6-4d58-8e0b-5a9c1d7f2e64"
    (by decide) (by decide) (by decide) (by decide)

/-- Claim C10: `AmqpEncoder::encode_input` either encodes the transformed
event and appends the whole body to the writer, returning the body's byte
length, or — exactly when the inner encoder fails — returns an `io::Error`
of kind `Other` with message `"unable to encode"` having written nothing. -/
theorem c10_amqp_encode (a : AmqpEncoder) (input : Event) (writer : List Nat) :
    (∀ body, a.encoder (a.transformer input) = some body →
      a.encode_input input writer = .ok (body.length, writer ++ body)) ∧
    (a.encoder (a.transformer input) = none →
      a.encode_input input writer =
        .error { kind := "Other", message := "unable to encode" }) := by
  constructor
  · intro body hb
    unfold AmqpEncoder.encode_input
    rw [hb]
  · intro hn
    unfold AmqpEncoder.encode_input
    rw [hn]

/-- Witness for `c10_amqp_encode`: a succeeding encoder writes its body and
reports its length; a failing encoder produces the `"unable to encode"`
error with the writer untouched. -/
theorem c10_amqp_encode_witness :
    AmqpEncoder.encode_input
        { encoder := fun _ => some [10, 20, 30], transformer := id }
        { log := { fields := [], message_path := none, host_path := none,
                   timestamp_key := "timestamp" }, finalizers := [] }
        [1, 2] = .ok (3, [1, 2, 10, 20, 30]) ∧
    AmqpEncoder.encode_input
        { encoder := fun _ => none, transformer := id }
        { log := { fields := [], message_path := none, host_path := none,
                   timestamp_key := "timestamp" }, finalizers := [] }
        [1, 2] = .error { kind := "Other", message := "unable to encode" } := by
  constructor
  · exact (c10_amqp_encode _ _ _).1 [10, 20, 30] rfl
  · exact (c10_amqp_encode _ _ _).2 rfl

/-- Concrete eight-byte `thread_rng` draw used by the C3 counterexample. -/
def c3rnd : List Nat := List.replicate 8 0

/-- First distinct event of the C3 counterexample. -/
def c3evA : LogEvent :=
  { fields := [("message", Value.bytes "login failed")],
    message_path := some "message", host_path := none,
    timestamp_key := "timestamp" }

/-- Second distinct event of the C3 counterexample (a different field
set). -/
def c3evB : LogEvent :=
  { fields := [("message", Value.bytes "disk full"), ("severity", Value.null)],
    message_path := some "message", host_path := none,
    timestamp_key := "timestamp" }

/-- Claim C3, counterexample to the claim as stated: `id_rnd_bytes` and
`id_seq_number` are fields of each `DatadogArchivesEncoding` instance — one
per sink's request builder — not process-wide state.  Two sinks in one
process each draw their own eight `thread_rng` bytes at construction; when
those independent draws coincide (`c3rnd` for both) and two distinct events
(`c3evA`, `c3evB` — their field sets differ) are normalized by the two
instances in the same millisecond, both records receive the identical
`_id`, although only two of the allowed `2^32` records were emitted in the
process. -/
theorem c3_counterexample :
    keysOf c3evA.fields ≠ keysOf c3evB.fields ∧
    (generate_log_id (DatadogArchivesEncoding.new c3rnd) 1629734427879).1 =
      (generate_log_id (DatadogArchivesEncoding.new c3rnd) 1629734427879).1 :=
  ⟨by decide, rfl⟩

/-- Claim C3 (corrected): ids generated by the same
`DatadogArchivesEncoding` instance are pairwise distinct as long as that
instance has generated fewer than `2^32` ids — the i-th and j-th
generations (`i = tss₁.length`, `j = tss₂.length` earlier generations
respectively) differ for `i ≠ j` below `2^32`, whatever the `Utc::now()`
timestamps were. -/
theorem c3_ids_distinct (rnd : List Nat) (tss₁ tss₂ : List Int) (t₁ t₂ : Int)
    (_h8 : rnd.length = 8) (hb : ∀ x ∈ rnd, x < 256)
    (hlt₁ : tss₁.length < 2 ^ 32) (hlt₂ : tss₂.length < 2 ^ 32)
    (hne : tss₁.length ≠ tss₂.length) :
    (generate_log_id (genStateAfter rnd tss₁) t₁).1 ≠
      (generate_log_id (genStateAfter rnd tss₂) t₂).1 := by
  intro h
  apply hne
  rw [generate_log_id_bytes rnd tss₁ t₁, generate_log_id_bytes rnd tss₂ t₂] at h
  have hmem : ∀ (tss : List Int) (t : Int),
      ∀ x ∈ bytesBE 6 (t % 2 ^ 48).toNat ++ rnd ++
        bytesBE 4 (tss.length % 2 ^ 32), x < 256 := by
    intro tss t x hx
    rcases List.mem_append.mp hx with hx | hx
    · rcases List.mem_append.mp hx with hx | hx
      · exact bytesBE_mem_lt _ _ _ hx
      · exact hb x hx
    · exact bytesBE_mem_lt _ _ _ hx
  have heq := base64Encode_injective _ _ (hmem tss₁ t₁) (hmem tss₂ t₂) h
  have hlenAB : (bytesBE 6 (t₁ % 2 ^ 48).toNat ++ rnd).length =
      (bytesBE 6 (t₂ % 2 ^ 48).toNat ++ rnd).length := by
    simp [List.length_append, bytesBE_length]
  have hC := (List.append_inj heq hlenAB).2
  have hpow : (256 : Nat) ^ 4 = 2 ^ 32 := by norm_num
  have hmod₁ : tss₁.length % 2 ^ 32 < 256 ^ 4 := by
    rw [hpow]
    exact Nat.mod_lt _ (by norm_num)
  have hmod₂ : tss₂.length % 2 ^ 32 < 256 ^ 4 := by
    rw [hpow]
    exact Nat.mod_lt _ (by norm_num)
  have := bytesBE_injective 4 _ _ hmod₁ hmod₂ hC
  omega

/-- Witness for `c3_ids_distinct`: the first and second ids of one fresh
encoder instance differ. -/
theorem c3_ids_distinct_witness :
    (generate_log_id (genStateAfter c3rnd []) 0).1 ≠
      (generate_log_id (genStateAfter c3rnd [0]) 0).1 :=
  c3_ids_distinct c3rnd [] [0] 0 0 (by decide) (by decide) (by decide)
    (by decide) (by decide)

/-- Claim C4: every generated `_id` is the standard base64 encoding of
exactly 18 raw bytes — the 6-byte big-endian millisecond timestamp of the
generation time (any realistic timestamp fits 48 bits), then the 8 random
bytes the encoder drew once at construction, then the 4-byte big-endian
counter that increments on every id and wraps at `2^32` (the id after
`tss.length` prior generations carries counter value `tss.length % 2^32`,
and the state update leaves `(tss.length + 1) % 2^32`). -/
theorem c4_id_layout (rnd : List Nat) (tss : List Int) (ts : Int)
    (h8 : rnd.length = 8) (hb : ∀ x ∈ rnd, x < 256)
    (h0 : 0 ≤ ts) (h48 : ts < 2 ^ 48) :
    base64Decode (generate_log_id (genStateAfter rnd tss) ts).1 =
        bytesBE 6 (ts % 2 ^ 48).toNat ++ rnd ++
          bytesBE 4 (tss.length % 2 ^ 32) ∧
    (bytesBE 6 (ts % 2 ^ 48).toNat ++ rnd ++
        bytesBE 4 (tss.length % 2 ^ 32)).length = 18 ∧
    fromBytesBE (bytesBE 6 (ts % 2 ^ 48).toNat) = ts.toNat ∧
    fromBytesBE (bytesBE 4 (tss.length % 2 ^ 32)) = tss.length % 2 ^ 32 ∧
    ((generate_log_id (genStateAfter rnd tss) ts).2).id_seq_number =
      (tss.length + 1) % 2 ^ 32 := by
  refine ⟨?_, ?_, ?_, ?_, ?_⟩
  · rw [generate_log_id_bytes rnd tss ts]
    apply base64_roundtrip
    intro x hx
    rcases List.mem_append.mp hx with hx | hx
    · rcases List.mem_append.mp hx with hx | hx
      · exact bytesBE_mem_lt _ _ _ hx
      · exact hb x hx
    · exact bytesBE_mem_lt _ _ _ hx
  · simp [List.length_append, bytesBE_length, h8]
  · rw [fromBytesBE_bytesBE]
    have hp : (256 : Nat) ^ 6 = 2 ^ 48 := by norm_num
    rw [hp]
    omega
  · rw [fromBytesBE_bytesBE]
    have hp : (256 : Nat) ^ 4 = 2 ^ 32 := by norm_num
    rw [hp]
    omega
  · have hstep : ((generate_log_id (genStateAfter rnd tss) ts).2).id_seq_number =
        ((genStateAfter rnd tss).id_seq_number + 1) % 2 ^ 32 := rfl
    rw [hstep, genStateAfter_counter]
    omega

/-- Witness for `c4_id_layout`: the first id of a fresh encoder at
timestamp `2021-08-23T16:00:27.879Z`. -/
theorem c4_id_layout_witness :
    base64Decode (generate_log_id (genStateAfter c3rnd []) 1629734427879).1 =
        bytesBE 6 ((1629734427879 : Int) % 2 ^ 48).toNat ++ c3rnd ++
          bytesBE 4 (([] : List Int).length % 2 ^ 32) ∧
    (bytesBE 6 ((1629734427879 : Int) % 2 ^ 48).toNat ++ c3rnd ++
        bytesBE 4 (([] : List Int).length % 2 ^ 32)).length = 18 ∧
    fromBytesBE (bytesBE 6 ((1629734427879 : Int) % 2 ^ 48).toNat) =
      (1629734427879 : Int).toNat ∧
    fromBytesBE (bytesBE 4 (([] : List Int).length % 2 ^ 32)) =
      ([] : List Int).length % 2 ^ 32 ∧
    ((generate_log_id (genStateAfter c3rnd []) 1629734427879).2).id_seq_number =
      (([] : List Int).length + 1) % 2 ^ 32 :=
  c4_id_layout c3rnd [] 1629734427879 (by decide) (by decide) (by decide)
    (by decide)

/-- Claim C5: the partition key rendered from `KEY_TEMPLATE` is identical
for any two timestamps in the same UTC calendar hour (same
`civilHourOf` date-and-hour), differs for any two timestamps in different
UTC hours, and the timestamp `2021-08-23T18:00:27.879+02:00` — the instant
`1629734427879` ms, i.e. `16:00:27.879` UTC — partitions to
`"/dt=20210823/hour=16/"`. -/
theorem c5_partition_key :
    (∀ t₁ t₂ : Int, civilHourOf t₁ = civilHourOf t₂ →
      partitionKeyOf t₁ = partitionKeyOf t₂) ∧
    (∀ t₁ t₂ : Int, civilHourOf t₁ ≠ civilHourOf t₂ →
      partitionKeyOf t₁ ≠ partitionKeyOf t₂) ∧
    partitionKeyOf 1629734427879 = "/dt=20210823/hour=16/" :=
  ⟨partitionKeyOf_eq_of_same_hour, partitionKeyOf_ne_of_diff_hour, by decide⟩

/-- Witness for `c5_partition_key`: `16:00:27.879` and `16:50:00.000` of
2021-08-23 share a key; `16:xx` and the adjacent hour `17:00` differ. -/
theorem c5_partition_key_witness :
    partitionKeyOf 1629734427879 = partitionKeyOf 1629737400000 ∧
    partitionKeyOf 1629734427879 ≠ partitionKeyOf 1629738000000 :=
  ⟨c5_partition_key.1 1629734427879 1629737400000 (by decide),
   c5_partition_key.2.1 1629734427879 1629738000000 (by decide)⟩

/-- Claim C6: under the default log schema (timestamp key `"timestamp"`,
message/host semantics not pointing at `"date"`), an event carrying a
timestamp value `t` gets `date` set to `t` rendered RFC 3339 with
millisecond precision in UTC; the timestamp field itself is removed — it
appears neither at top level nor inside `attributes`; an event without a
timestamp value still gets a `date`, rendered from the `Utc::now()` value
the encoder reads (`now`), with no error (the normalization is total); and
the scenario instant `2021-08-23T18:00:27.879+02:00` = `1629734427879` ms
renders as `"2021-08-23T16:00:27.879Z"`. -/
theorem c6_date_resolution (e : LogEvent) (id : String) (now t : Int)
    (hts : e.timestamp_key = "timestamp")
    (hmp : e.message_path ≠ some "date") (hhp : e.host_path ≠ some "date") :
    (List.lookup "timestamp" e.fields = some (Value.timestamp t) →
      List.lookup "date" (normalizeEvent id now e) =
        some (Value.bytes (rfc3339Millis t))) ∧
    (List.lookup "timestamp" e.fields = none →
      List.lookup "date" (normalizeEvent id now e) =
        some (Value.bytes (rfc3339Millis now))) ∧
    "timestamp" ∉ keysOf (normalizeEvent id now e) ∧
    (∀ attrs, List.lookup "attributes" (normalizeEvent id now e) =
      some (Value.object attrs) → "timestamp" ∉ keysOf attrs) ∧
    rfc3339Millis 1629734427879 = "2021-08-23T16:00:27.879Z" := by
  refine ⟨?_, ?_, ?_, ?_, by decide⟩
  · intro hl
    rw [lookup_date_normalizeEvent id now e hts hmp hhp, hl]
  · intro hl
    rw [lookup_date_normalizeEvent id now e hts hmp hhp, hl]
  · intro hmem
    rw [mem_keysOf_normalizeEvent] at hmem
    rcases hmem with hmem | hmem
    · exact absurd hmem (by decide)
    · exact absurd hmem.1 (by decide)
  · intro attrs hl hmem
    rw [lookup_attributes_normalizeEvent] at hl
    have hattrs : attrs = (normalizePre id now e).filter
        (fun kv => decide (kv.1 ∉ RESERVED_ATTRIBUTES)) := by
      injection hl with hl'
      injection hl' with ha
      exact ha.symm
    subst hattrs
    rw [keysOf_filter_key _ (fun s => decide (s ∉ RESERVED_ATTRIBUTES))] at hmem
    exact timestamp_not_mem_normalizePre id now e hts hmem.1

/-- Concrete event for the C6 witness: the repository's `encodes_event`
test event shape with the scenario timestamp. -/
def c6ev : LogEvent :=
  { fields := [("message", Value.bytes "test message"),
               ("timestamp", Value.timestamp 1629734427879)],
    message_path := some "message", host_path := none,
    timestamp_key := "timestamp" }

/-- Witness for `c6_date_resolution` at the scenario event. -/
theorem c6_date_resolution_witness :
    (List.lookup "timestamp" c6ev.fields =
        some (Value.timestamp 1629734427879) →
      List.lookup "date" (normalizeEvent "id0" 0 c6ev) =
        some (Value.bytes (rfc3339Millis 1629734427879))) ∧
    (List.lookup "timestamp" c6ev.fields = none →
      List.lookup "date" (normalizeEvent "id0" 0 c6ev) =
        some (Value.bytes (rfc3339Millis 0))) ∧
    "timestamp" ∉ keysOf (normalizeEvent "id0" 0 c6ev) ∧
    (∀ attrs, List.lookup "attributes" (normalizeEvent "id0" 0 c6ev) =
      some (Value.object attrs) → "timestamp" ∉ keysOf attrs) ∧
    rfc3339Millis 1629734427879 = "2021-08-23T16:00:27.879Z" :=
  c6_date_resolution c6ev "id0" 0 1629734427879 rfl (by decide) (by decide)

/-- Counterexample event for claim C2: its message semantic lives at the
non-reserved path `"msg"` (vector schema meanings may designate any
field). -/
def c2ev : LogEvent :=
  { fields := [("msg", Value.bytes "boot complete")],
    message_path := some "msg", host_path := none,
    timestamp_key := "timestamp" }

/-- Claim C2, counterexample to the claim as stated: `encode_input` renames
the message-semantic field `"msg"` to top-level `"message"`, so the record's
key set contains the reserved key `"message"` although `"message"` is not a
reserved field *present in the source event* — the claimed key-set equality
`{_id, date} ∪ (reserved present in source) ∪ {attributes}` fails for this
event. -/
theorem c2_counterexample :
    "message" ∈ keysOf (normalizeEvent "id0" 0 c2ev) ∧
    "message" ∉ ["_id", "date", "attributes"] ++
      RESERVED_ATTRIBUTES.filter (fun r => decide (r ∈ keysOf c2ev.fields)) := by
  decide

/-- Claim C2 (corrected): under the default timestamp key and with the
message/host semantics not designating `"_id"`/`"date"`, the top-level keys
of the normalized record are exactly `{_id, date, attributes}` together
with the reserved fields present *after* the message/host renames (rather
than those present in the source event); `_id` and `date` are always
present, no other key survives at top level, and no reserved field appears
inside `attributes`. -/
theorem c2_record_shape (id : String) (now : Int) (e : LogEvent)
    (hts : e.timestamp_key = "timestamp")
    (hmp : ∀ p, e.message_path = some p → p ≠ "_id" ∧ p ≠ "date")
    (hhp : ∀ p, e.host_path = some p → p ≠ "_id" ∧ p ≠ "date") :
    (∀ k, k ∈ keysOf (normalizeEvent id now e) ↔
      (k = "_id" ∨ k = "date" ∨ k = "attributes" ∨
        (k ∈ RESERVED_ATTRIBUTES ∧ k ∈ keysOf (normalizePre id now e)))) ∧
    "_id" ∈ keysOf (normalizePre id now e) ∧
    "date" ∈ keysOf (normalizePre id now e) ∧
    (∀ attrs, List.lookup "attributes" (normalizeEvent id now e) =
      some (Value.object attrs) →
      ∀ k ∈ keysOf attrs, k ∉ RESERVED_ATTRIBUTES) := by
  have hid : "_id" ∈ keysOf (normalizePre id now e) :=
    id_mem_normalizePre id now e (by rw [hts]; decide)
      (fun p hp => (hmp p hp).1) (fun p hp => (hhp p hp).1)
  have hdate : "date" ∈ keysOf (normalizePre id now e) :=
    date_mem_normalizePre id now e
      (fun p hp => (hmp p hp).2) (fun p hp => (hhp p hp).2)
  refine ⟨?_, hid, hdate, ?_⟩
  · intro k
    rw [mem_keysOf_normalizeEvent]
    constructor
    · rintro (rfl | ⟨hres, hmem⟩)
      · exact Or.inr (Or.inr (Or.inl rfl))
      · exact Or.inr (Or.inr (Or.inr ⟨hres, hmem⟩))
    · rintro (rfl | rfl | rfl | ⟨hres, hmem⟩)
      · exact Or.inr ⟨by decide, hid⟩
      · exact Or.inr ⟨by decide, hdate⟩
      · exact Or.inl rfl
      · exact Or.inr ⟨hres, hmem⟩
  · intro attrs hl k hk
    rw [lookup_attributes_normalizeEvent] at hl
    have hattrs : attrs = (normalizePre id now e).filter
        (fun kv => decide (kv.1 ∉ RESERVED_ATTRIBUTES)) := by
      injection hl with hl'
      injection hl' with ha
      exact ha.symm
    subst hattrs
    exact attributes_keys_not_reserved id now e k hk

/-- Witness event for `c2_record_shape`: the repository's `encodes_event`
test event (message, service, tags, a custom field, a timestamp). -/
def c2wev : LogEvent :=
  { fields := [("message", Value.bytes "test message"),
               ("service", Value.bytes "test-service"),
               ("not_a_reserved_attribute", Value.bytes "value"),
               ("tags", Value.array [Value.bytes "tag1:value1"]),
               ("timestamp", Value.timestamp 1629734427879)],
    message_path := some "message", host_path := none,
    timestamp_key := "timestamp" }

/-- Witness for `c2_record_shape` at the test event. -/
theorem c2_record_shape_witness :
    (∀ k, k ∈ keysOf (normalizeEvent "id0" 0 c2wev) ↔
      (k = "_id" ∨ k = "date" ∨ k = "attributes" ∨
        (k ∈ RESERVED_ATTRIBUTES ∧ k ∈ keysOf (normalizePre "id0" 0 c2wev)))) ∧
    "_id" ∈ keysOf (normalizePre "id0" 0 c2wev) ∧
    "date" ∈ keysOf (normalizePre "id0" 0 c2wev) ∧
    (∀ attrs, List.lookup "attributes" (normalizeEvent "id0" 0 c2wev) =
      some (Value.object attrs) →
      ∀ k ∈ keysOf attrs, k ∉ RESERVED_ATTRIBUTES) :=
  c2_record_shape "id0" 0 c2wev rfl
    (fun p hp => by injection hp with h; subst h; exact ⟨by decide, by decide⟩)
    (fun p hp => by cases hp)

/-- Claim C7: each of the three backend request builders' `split_input`
drains the delivery finalizers out of the batch's events into the
per-request metadata before the events go to the encoder (the returned
events carry none), and `build_request` attaches exactly those finalizers
to the built request — so a built request always carries the batch's
delivery tokens, whatever happened to the payload in between. -/
theorem c7_finalizers_preserved :
    (∀ (sz : Event → Nat) (pk : S3PartitionKey) (evs : List Event)
        (b : DatadogS3RequestBuilder) (uuid : String) (rm : RequestMetadata)
        (payload : List Nat),
      (DatadogS3RequestBuilder.split_input sz (pk, evs)).1.finalizers =
        (evs.map Event.finalizers).flatten ∧
      (∀ e ∈ (DatadogS3RequestBuilder.split_input sz (pk, evs)).2.2,
        e.finalizers = []) ∧
      (DatadogS3RequestBuilder.build_request b uuid
          (DatadogS3RequestBuilder.split_input sz (pk, evs)).1 rm
          payload).metadata.finalizers = (evs.map Event.finalizers).flatten) ∧
    (∀ (sz : Event → Nat) (pk : String) (evs : List Event)
        (b : DatadogGcsRequestBuilder) (uuid : String) (rm : RequestMetadata)
        (payload : List Nat),
      ((DatadogGcsRequestBuilder.split_input sz (pk, evs)).1).2 =
        (evs.map Event.finalizers).flatten ∧
      (∀ e ∈ (DatadogGcsRequestBuilder.split_input sz (pk, evs)).2.2,
        e.finalizers = []) ∧
      (DatadogGcsRequestBuilder.build_request b uuid
          (DatadogGcsRequestBuilder.split_input sz (pk, evs)).1 rm
          payload).finalizers = (evs.map Event.finalizers).flatten) ∧
    (∀ (sz : Event → Nat) (pk : String) (evs : List Event)
        (b : DatadogAzureRequestBuilder) (uuid : String) (rm : RequestMetadata)
        (payload : List Nat),
      (DatadogAzureRequestBuilder.split_input sz (pk, evs)).1.finalizers =
        (evs.map Event.finalizers).flatten ∧
      (∀ e ∈ (DatadogAzureRequestBuilder.split_input sz (pk, evs)).2.2,
        e.finalizers = []) ∧
      (DatadogAzureRequestBuilder.build_request b uuid
          (DatadogAzureRequestBuilder.split_input sz (pk, evs)).1 rm
          payload).metadata.finalizers = (evs.map Event.finalizers).flatten) := by
  refine ⟨?_, ?_, ?_⟩
  · intro sz pk evs b uuid rm payload
    refine ⟨rfl, ?_, rfl⟩
    intro e he
    obtain ⟨x, -, rfl⟩ := List.mem_map.mp he
    rfl
  · intro sz pk evs b uuid rm payload
    refine ⟨rfl, ?_, rfl⟩
    intro e he
    obtain ⟨x, -, rfl⟩ := List.mem_map.mp he
    rfl
  · intro sz pk evs b uuid rm payload
    refine ⟨rfl, ?_, rfl⟩
    intro e he
    obtain ⟨x, -, rfl⟩ := List.mem_map.mp he
    rfl

/-- Fixtures for the C7 witness: a two-event batch with tokens `[1,2]` and
`[3]`. -/
def c7log : LogEvent :=
  { fields := [], message_path := none, host_path := none,
    timestamp_key := "timestamp" }

/-- The C7 witness batch. -/
def c7evs : List Event :=
  [{ log := c7log, finalizers := [1, 2] }, { log := c7log, finalizers := [3] }]

/-- Witness for `c7_finalizers_preserved`: on the two-event batch, each
builder's metadata and built request carry `[1, 2, 3]` and the returned
events carry no finalizers. -/
theorem c7_finalizers_preserved_witness :
    (DatadogS3RequestBuilder.split_input (fun _ => 0)
        ({ keyPrefix := "/dt=20210823/hour=16/", ssekms_key_id := none },
          c7evs)).1.finalizers = [1, 2, 3] ∧
    ((DatadogS3RequestBuilder.split_input (fun _ => 0)
        ({ keyPrefix := "/dt=20210823/hour=16/", ssekms_key_id := none },
          c7evs)).2.2).map Event.finalizers = [[], []] ∧
    (DatadogS3RequestBuilder.build_request
        { bucket := "dd-logs", keyPrefix := some "audit" } "u"
        (DatadogS3RequestBuilder.split_input (fun _ => 0)
          ({ keyPrefix := "/dt=20210823/hour=16/", ssekms_key_id := none },
            c7evs)).1
        { event_count := 2, events_byte_size := 0 } []).metadata.finalizers =
      [1, 2, 3] ∧
    ((DatadogGcsRequestBuilder.split_input (fun _ => 0)
        ("/dt=20210823/hour=16/", c7evs)).1).2 = [1, 2, 3] ∧
    (DatadogGcsRequestBuilder.build_request
        { bucket := "dd-logs", keyPrefix := some "audit" } "u"
        (DatadogGcsRequestBuilder.split_input (fun _ => 0)
          ("/dt=20210823/hour=16/", c7evs)).1
        { event_count := 2, events_byte_size := 0 } []).finalizers =
      [1, 2, 3] ∧
    (DatadogAzureRequestBuilder.split_input (fun _ => 0)
        ("/dt=20210823/hour=16/", c7evs)).1.finalizers = [1, 2, 3] ∧
    (DatadogAzureRequestBuilder.build_request
        { container_name := "dd-logs", blobPrefix := some "audit" } "u"
        (DatadogAzureRequestBuilder.split_input (fun _ => 0)
          ("/dt=20210823/hour=16/", c7evs)).1
        { event_count := 2, events_byte_size := 0 } []).metadata.finalizers =
      [1, 2, 3] := by
  refine ⟨?_, by decide, ?_, ?_, ?_, ?_, ?_⟩
  · exact ((c7_finalizers_preserved.1 (fun _ => 0)
      { keyPrefix := "/dt=20210823/hour=16/", ssekms_key_id := none } c7evs
      { bucket := "dd-logs", keyPrefix := some "audit" } "u"
      { event_count := 2, events_byte_size := 0 } []).1).trans (by decide)
  · exact ((c7_finalizers_preserved.1 (fun _ => 0)
      { keyPrefix := "/dt=20210823/hour=16/", ssekms_key_id := none } c7evs
      { bucket := "dd-logs", keyPrefix := some "audit" } "u"
      { event_count := 2, events_byte_size := 0 } []).2.2).trans (by decide)
  · exact ((c7_finalizers_preserved.2.1 (fun _ => 0) "/dt=20210823/hour=16/"
      c7evs { bucket := "dd-logs", keyPrefix := some "audit" } "u"
      { event_count := 2, events_byte_size := 0 } []).1).trans (by decide)
  · exact ((c7_finalizers_preserved.2.1 (fun _ => 0) "/dt=20210823/hour=16/"
      c7evs { bucket := "dd-logs", keyPrefix := some "audit" } "u"
      { event_count := 2, events_byte_size := 0 } []).2.2).trans (by decide)
  · exact ((c7_finalizers_preserved.2.2 (fun _ => 0) "/dt=20210823/hour=16/"
      c7evs { container_name := "dd-logs", blobPrefix := some "audit" } "u"
      { event_count := 2, events_byte_size := 0 } []).1).trans (by decide)
  · exact ((c7_finalizers_preserved.2.2 (fun _ => 0) "/dt=20210823/hour=16/"
      c7evs { container_name := "dd-logs", blobPrefix := some "audit" } "u"
      { event_count := 2, events_byte_size := 0 } []).2.2).trans (by decide)
